import Mathlib

/-!
Shallow embedding of `src/pa3.c`: the MMU core of a teaching operating
system — two-level page tables, per-frame reference counts, copy-on-write
page-fault handling, and process switch/fork.

Modelling conventions:
* Machine integers are `Nat`.  The configuration constants
  `NR_PTES_PER_PAGE` and `NR_PAGEFRAMES` come from the external header
  `vm.h` and are passed explicitly as parameters `NPP` and `NPF`.
* Fixed-size C arrays become total functions from `Nat`; the code only
  ever uses indices below the configured bound.
* A NULL pointer to an inner directory is `none`.
* Memory freshly obtained from `malloc` is modelled as zero-initialized
  (the C code does not itself initialize the non-copied slots of a newly
  created directory; on the zero-filled heap of the simulation they read
  as all-default PTEs).
* A NULL-pointer dereference performed by the C code is modelled by the
  operation returning `none`: there is no defined result state.
* The C globals `current`, `processes`, `ptbr` and `mapcounts` form the
  `State`.  `ptbr` always aliases `&current->pagetable` (the framework
  installs it at boot and `switch_process` re-installs it on every
  switch), so a store through `ptbr` is a store into the current
  process's page table; `setPT` updates both components accordingly.
* Each `Process` additionally carries a `tag`, the model of the C
  object's identity (its address); forking draws a fresh tag from the
  state's `nextTag` counter.
* `frames` is modelled from the spec (per-frame page content, spec §4.4
  and §9): the source under `src/` never reads or writes page contents,
  so the operations below leave this component untouched.
-/

namespace PA3

/-- A page-table entry (`struct pte`): the valid and writable bits, the
frame number `pfn`, and the COW marker (the C field `private`, a Lean
keyword, is embedded as `priv`). -/
structure PTE where
  valid : Bool
  writable : Bool
  pfn : Nat
  priv : Bool
deriving DecidableEq

/-- The default (zero-initialized) PTE value. -/
def emptyPTE : PTE := { valid := false, writable := false, pfn := 0, priv := false }

/-- An inner directory (`struct pte_directory`): the fixed array
`ptes[NR_PTES_PER_PAGE]` as a total function; only indices below `NPP`
are used. -/
abbrev PteDirectory := Nat → PTE

/-- A zero-initialized inner directory. -/
def emptyPD : PteDirectory := fun _ => emptyPTE

/-- A page table (`struct pagetable`): the fixed array
`outer_ptes[NR_PTES_PER_PAGE]` of nullable pointers to inner
directories. -/
abbrev Pagetable := Nat → Option PteDirectory

/-- A page table with no allocated inner directory. -/
def emptyPT : Pagetable := fun _ => none

/-- Array store at one index. -/
def updFn {α : Type} (f : Nat → α) (i : Nat) (v : α) : Nat → α :=
  fun j => if j = i then v else f j

/-- A process (`struct process`): its pid and its page table.  `tag`
models the identity of the C object (its address) and is assigned
freshly at fork time. -/
structure Process where
  tag : Nat
  pid : Nat
  pagetable : Pagetable

/-- The global state of the simulation: the running process `current`,
the ready queue `processes` (list head = front of the C list), the
translation root `ptbr`, the per-frame reference counts `mapcounts`,
the per-frame content `frames` (modelled from the spec, see the file
header), and the fresh-identity counter `nextTag`. -/
structure State where
  current : Process
  processes : List Process
  ptbr : Pagetable
  mapcounts : Nat → Nat
  frames : Nat → Nat
  nextTag : Nat

/-- Install a new page-table value for the running process.  The C code
stores through `ptbr`, which aliases `&current->pagetable`, so the
register and the process record change together. -/
def setPT (s : State) (pt : Pagetable) : State :=
  { s with ptbr := pt, current := { s.current with pagetable := pt } }

/-- The free-frame scan `while (num < NR_PAGEFRAMES && mapcounts[num])
num++;` starting at `num`.  `fuel` is the number of indices left before
`NR_PAGEFRAMES`; the loop runs exactly that many times, so the fuel
makes the recursion structural without changing the result. -/
def scanFrom (mc : Nat → Nat) (num : Nat) : Nat → Option Nat
  | 0 => none
  | fuel + 1 => if mc num = 0 then some num else scanFrom mc (num + 1) fuel

/-- The free-frame scan used by `alloc_page` and `handle_page_fault`:
the smallest frame index below `NPF` whose reference count is zero, or
`none` (the C sentinel `-1` / scan running off the end) if every frame
is taken. -/
def scanFree (mc : Nat → Nat) (NPF : Nat) : Option Nat :=
  scanFrom mc 0 NPF

/-- `alloc_page(vpn, rw)` of `src/pa3.c`.  Returns the allocated frame
number (`none` embeds the C sentinel `-1`) together with the new state.
The literal `3` is the source's `rw == 0x03` test (`RW_READ | RW_WRITE`
in the framework's mode encoding): only a read-write request sets the
writable bit. -/
def alloc_page (NPP NPF : Nat) (s : State) (vpn rw : Nat) : Option Nat × State :=
  let pd_index := vpn / NPP
  let pte_index := vpn % NPP
  let pt : Pagetable :=
    match s.ptbr pd_index with
    | none => updFn s.ptbr pd_index (some emptyPD)
    | some _ => s.ptbr
  let pd := (pt pd_index).getD emptyPD
  match scanFree s.mapcounts NPF with
  | none => (none, setPT s pt)
  | some num =>
      let pte : PTE := { valid := true, writable := rw == 3, pfn := num, priv := false }
      (some num,
        { setPT s (updFn pt pd_index (some (updFn pd pte_index pte))) with
            mapcounts := updFn s.mapcounts num (s.mapcounts num + 1) })

/-- `free_page(vpn)` of `src/pa3.c`.  `none` models the NULL
inner-directory dereference (no defined result state).  Note that the
source resets `valid`, `writable` and `pfn` but leaves `private` as it
was, and that `mapcounts[pte->pfn]--` is an unsigned decrement — the
count is positive whenever the stated precondition (the vpn is
currently mapped) holds together with the reference-count invariant, so
`Nat` subtraction agrees with the C semantics there. -/
def free_page (NPP : Nat) (s : State) (vpn : Nat) : Option State :=
  let pd_index := vpn / NPP
  let pte_index := vpn % NPP
  match s.ptbr pd_index with
  | none => none
  | some pd =>
      let pte := pd pte_index
      let pte' : PTE := { valid := false, writable := false, pfn := 0, priv := pte.priv }
      some
        { setPT s (updFn s.ptbr pd_index (some (updFn pd pte_index pte'))) with
            mapcounts := updFn s.mapcounts pte.pfn (s.mapcounts pte.pfn - 1) }

/-- The framework's access-mode encoding (`vm.h`, not part of `src/`).
Modelled from the spec's two recognized modes: `RW_READ = 0x01`,
`RW_WRITE = 0x02`; a read-write allocation request arrives as
`RW_READ | RW_WRITE = 0x03`. -/
def RW_READ : Nat := 1

/-- See `RW_READ`. -/
def RW_WRITE : Nat := 2

/-- `handle_page_fault(vpn, rw)` of `src/pa3.c`.  `none` models the
NULL inner-directory dereference (reachable only for a non-read fault
on a vpn whose inner directory was never allocated).  Note that the
source never tests `pte->valid`. -/
def handle_page_fault (NPP NPF : Nat) (s : State) (vpn rw : Nat) :
    Option (Bool × State) :=
  if rw = RW_READ then some (false, s)
  else
    let pd_index := vpn / NPP
    let pte_index := vpn % NPP
    match s.ptbr pd_index with
    | none => none
    | some pd =>
        let pte := pd pte_index
        if !pte.writable && pte.priv then
          if s.mapcounts pte.pfn = 1 then
            some (true, setPT s (updFn s.ptbr pd_index
              (some (updFn pd pte_index { pte with writable := true, priv := false }))))
          else
            match scanFree s.mapcounts NPF with
            | none => some (false, s)
            | some num =>
                let mc := updFn s.mapcounts pte.pfn (s.mapcounts pte.pfn - 1)
                some (true,
                  { setPT s (updFn s.ptbr pd_index
                      (some (updFn pd pte_index
                        { pte with pfn := num, writable := true, priv := false }))) with
                      mapcounts := updFn mc num (mc num + 1) })
        else some (false, s)

/-- The `list_for_each_entry_safe` search of `switch_process`: remove
the first process with the given pid from the ready queue, returning it
together with the remaining queue. -/
def removeFirstPid : List Process → Nat → Option (Process × List Process)
  | [], _ => none
  | p :: ps, pid =>
      if p.pid = pid then some (p, ps)
      else
        match removeFirstPid ps pid with
        | none => none
        | some (q, qs) => some (q, p :: qs)

/-- COW demotion of one parent PTE at fork: a writable entry becomes
non-writable and private; any other entry is untouched. -/
def demote (pte : PTE) : PTE :=
  if pte.writable then { pte with writable := false, priv := true } else pte

/-- The parent's inner directory after the fork loop body ran over it
(each valid entry demoted when writable). -/
def forkParentPD (pd : PteDirectory) : PteDirectory :=
  fun j => if (pd j).valid then demote (pd j) else pd j

/-- The child's inner directory built by the fork loop: every valid
parent entry is copied field by field after demotion; the remaining
slots of the freshly `malloc`ed directory are modelled
zero-initialized. -/
def forkChildPD (pd : PteDirectory) : PteDirectory :=
  fun j =>
    if (pd j).valid then
      { valid := true, writable := (demote (pd j)).writable,
        pfn := (pd j).pfn, priv := (demote (pd j)).priv }
    else emptyPTE

/-- The parent's page table after forking (outer loop over `i < NPP`). -/
def forkParentPT (NPP : Nat) (pt : Pagetable) : Pagetable :=
  fun i => if i < NPP then (pt i).map forkParentPD else pt i

/-- The child's page table after forking: an inner directory exactly
where the parent has one. -/
def forkChildPT (NPP : Nat) (pt : Pagetable) : Pagetable :=
  fun i => if i < NPP then (pt i).map forkChildPD else none

/-- The reference-count increments performed by the fork loop over one
inner directory, entry indices below `n`, in ascending order. -/
def bumpPD (pd : PteDirectory) (mc : Nat → Nat) : Nat → Nat → Nat
  | 0 => mc
  | n + 1 =>
      let mc' := bumpPD pd mc n
      if (pd n).valid then updFn mc' (pd n).pfn (mc' (pd n).pfn + 1) else mc'

/-- The reference-count increments performed by the whole fork loop,
outer indices below `n`, in ascending order. -/
def bumpPT (NPP : Nat) (pt : Pagetable) (mc : Nat → Nat) : Nat → Nat → Nat
  | 0 => mc
  | n + 1 =>
      let mc' := bumpPT NPP pt mc n
      match pt n with
      | none => mc'
      | some pd => bumpPD pd mc' NPP

/-- `switch_process(pid)` of `src/pa3.c`: hand the CPU to the first
ready process with the requested pid, or — when none exists — fork the
current process into a new process with that pid. -/
def switch_process (NPP : Nat) (s : State) (pid : Nat) : State :=
  match removeFirstPid s.processes pid with
  | some (temp, rest) =>
      { s with processes := s.current :: rest,
               current := temp,
               ptbr := temp.pagetable }
  | none =>
      let pt := s.ptbr
      let child : Process :=
        { tag := s.nextTag, pid := pid, pagetable := forkChildPT NPP pt }
      let parent : Process := { s.current with pagetable := forkParentPT NPP pt }
      { s with processes := parent :: s.processes,
               current := child,
               ptbr := child.pagetable,
               mapcounts := bumpPT NPP pt s.mapcounts NPP,
               nextTag := s.nextTag + 1 }

/-- Does this PTE map frame `f` (valid with `pfn = f`)? -/
def pteMaps (pte : PTE) (f : Nat) : Bool := pte.valid && pte.pfn == f

/-- Number of entries with index below `n` of one inner directory that
map frame `f`. -/
def countPD (pd : PteDirectory) (f : Nat) : Nat → Nat
  | 0 => 0
  | n + 1 => countPD pd f n + (if pteMaps (pd n) f then 1 else 0)

/-- Number of valid PTEs of a page table (outer index below `n`, inner
index below `NPP`) that map frame `f`. -/
def countPT (NPP : Nat) (pt : Pagetable) (f : Nat) : Nat → Nat
  | 0 => 0
  | n + 1 =>
      countPT NPP pt f n +
        match pt n with
        | none => 0
        | some pd => countPD pd f NPP

/-- Sum of `countPT` over a list of processes. -/
def sumPT (NPP : Nat) (l : List Process) (f : Nat) : Nat :=
  (l.map fun p => countPT NPP p.pagetable f NPP).sum

/-- Number of valid PTEs across all processes (current plus ready
queue) that map frame `f`. -/
def countState (NPP : Nat) (s : State) (f : Nat) : Nat :=
  countPT NPP s.current.pagetable f NPP + sumPT NPP s.processes f

/-- The reference-count conservation invariant (spec §3, invariant 1):
every frame's `mapcounts` entry equals the number of valid PTEs across
all processes that map it. -/
def refInv (NPP NPF : Nat) (s : State) : Prop :=
  ∀ f, f < NPF → s.mapcounts f = countState NPP s f

/-- The PTE a vpn resolves to; `none` when the inner directory is not
allocated. -/
def vpnPTE (NPP : Nat) (pt : Pagetable) (vpn : Nat) : Option PTE :=
  match pt (vpn / NPP) with
  | none => none
  | some pd => some (pd (vpn % NPP))

/-- Is the vpn mapped (inner directory allocated and entry valid)? -/
def validAt (NPP : Nat) (pt : Pagetable) (vpn : Nat) : Bool :=
  match vpnPTE NPP pt vpn with
  | none => false
  | some pte => pte.valid

/-- Occurrences (by identity tag) of a process in a list. -/
def countTag (l : List Process) (t : Nat) : Nat :=
  l.countP fun p => p.tag == t

/-! ### Basic lemmas about the helpers -/

theorem updFn_same {α : Type} (f : Nat → α) (i : Nat) (v : α) :
    updFn f i v i = v := by
  simp [updFn]

theorem updFn_other {α : Type} (f : Nat → α) (i j : Nat) (v : α) (h : j ≠ i) :
    updFn f i v j = f j := by
  simp [updFn, h]

theorem scanFrom_some (mc : Nat → Nat) :
    ∀ fuel num k, scanFrom mc num fuel = some k →
      mc k = 0 ∧ num ≤ k ∧ k < num + fuel ∧ ∀ j, num ≤ j → j < k → mc j ≠ 0 := by
  intro fuel
  induction fuel with
  | zero => intro num k h; simp [scanFrom] at h
  | succ n ih =>
      intro num k h
      rw [scanFrom] at h
      by_cases h0 : mc num = 0
      · rw [if_pos h0] at h
        cases h
        exact ⟨h0, Nat.le_refl _, by omega, fun j hj hj2 => by omega⟩
      · rw [if_neg h0] at h
        obtain ⟨hk, h1, h2, h3⟩ := ih (num + 1) k h
        refine ⟨hk, by omega, by omega, fun j hj hjk => ?_⟩
        rcases Nat.eq_or_lt_of_le hj with rfl | hlt
        · exact h0
        · exact h3 j (by omega) hjk

theorem scanFrom_none (mc : Nat → Nat) :
    ∀ fuel num, scanFrom mc num fuel = none →
      ∀ j, num ≤ j → j < num + fuel → mc j ≠ 0 := by
  intro fuel
  induction fuel with
  | zero => intro num _ j hj hj2; omega
  | succ n ih =>
      intro num h j hj hj2
      rw [scanFrom] at h
      by_cases h0 : mc num = 0
      · rw [if_pos h0] at h; exact absurd h (by simp)
      · rw [if_neg h0] at h
        rcases Nat.eq_or_lt_of_le hj with rfl | hlt
        · exact h0
        · exact ih (num + 1) h j (by omega) (by omega)

theorem scanFree_some_spec (mc : Nat → Nat) (NPF k : Nat)
    (h : scanFree mc NPF = some k) :
    mc k = 0 ∧ k < NPF ∧ ∀ j, j < k → mc j ≠ 0 := by
  obtain ⟨h1, _, h3, h4⟩ := scanFrom_some mc NPF 0 k h
  exact ⟨h1, by omega, fun j hj => h4 j (Nat.zero_le _) hj⟩

theorem scanFree_none_spec (mc : Nat → Nat) (NPF : Nat)
    (h : scanFree mc NPF = none) : ∀ j, j < NPF → mc j ≠ 0 := by
  intro j hj
  exact scanFrom_none mc NPF 0 h j (Nat.zero_le _) (by omega)

theorem scanFree_isSome (mc : Nat → Nat) (NPF f0 : Nat)
    (h0 : f0 < NPF) (hf : mc f0 = 0) : ∃ k, scanFree mc NPF = some k := by
  cases h : scanFree mc NPF with
  | none => exact absurd hf (scanFree_none_spec mc NPF h f0 h0)
  | some k => exact ⟨k, rfl⟩

/-! ### Counting lemmas -/

theorem countPD_congr (pd pd' : PteDirectory) (f : Nat) :
    ∀ n, (∀ j, j < n → pd j = pd' j) → countPD pd f n = countPD pd' f n := by
  intro n
  induction n with
  | zero => intro _; rfl
  | succ m ih =>
      intro h
      rw [countPD, countPD, ih (fun j hj => h j (by omega)), h m (by omega)]

theorem countPD_upd (pd : PteDirectory) (i : Nat) (v : PTE) (f : Nat) :
    ∀ n, i < n →
      countPD (updFn pd i v) f n + (if pteMaps (pd i) f then 1 else 0) =
        countPD pd f n + (if pteMaps v f then 1 else 0) := by
  intro n
  induction n with
  | zero => intro h; omega
  | succ m ih =>
      intro h
      rw [countPD, countPD]
      by_cases hi : i = m
      · subst hi
        have : countPD (updFn pd i v) f i = countPD pd f i :=
          countPD_congr _ _ f i fun j hj => updFn_other pd i j v (by omega)
        rw [this, updFn_same]
        omega
      · have := ih (by omega)
        rw [updFn_other pd i m v (by omega)]
        omega

theorem countPD_zero_of (pd : PteDirectory) (f : Nat) :
    ∀ n, (∀ j, j < n → pteMaps (pd j) f = false) → countPD pd f n = 0 := by
  intro n
  induction n with
  | zero => intro _; rfl
  | succ m ih =>
      intro h
      rw [countPD, ih (fun j hj => h j (by omega)), h m (by omega)]
      simp

theorem countPD_pos (pd : PteDirectory) (f : Nat) :
    ∀ n j, j < n → pteMaps (pd j) f = true → 1 ≤ countPD pd f n := by
  intro n
  induction n with
  | zero => intro j h; omega
  | succ m ih =>
      intro j hj hm
      rw [countPD]
      by_cases hjm : j = m
      · subst hjm; rw [hm, if_pos rfl]; omega
      · have := ih j (by omega) hm; omega

theorem countPD_le_one (pd : PteDirectory) (f : Nat) :
    ∀ n, (∀ j1 j2, j1 < n → j2 < n →
        pteMaps (pd j1) f = true → pteMaps (pd j2) f = true → j1 = j2) →
      countPD pd f n ≤ 1 := by
  intro n
  induction n with
  | zero => intro _; simp [countPD]
  | succ m ih =>
      intro h
      rw [countPD]
      by_cases hm : pteMaps (pd m) f = true
      · have : countPD pd f m = 0 := by
          apply countPD_zero_of
          intro j hj
          by_contra hj2
          have : j = m := h j m (by omega) (by omega) (by simpa using hj2) hm
          omega
        rw [this, hm, if_pos rfl]
      · have h1 := ih fun j1 j2 h1 h2 m1 m2 => h j1 j2 (by omega) (by omega) m1 m2
        rw [if_neg hm]
        omega

theorem countPT_congr (NPP : Nat) (pt pt' : Pagetable) (f : Nat) :
    ∀ n, (∀ i, i < n → pt i = pt' i) → countPT NPP pt f n = countPT NPP pt' f n := by
  intro n
  induction n with
  | zero => intro _; rfl
  | succ m ih =>
      intro h
      rw [countPT, countPT, ih (fun i hi => h i (by omega)), h m (by omega)]

theorem countPT_upd (NPP : Nat) (pt : Pagetable) (i : Nat) (pd' : PteDirectory) (f : Nat) :
    ∀ n, i < n →
      countPT NPP (updFn pt i (some pd')) f n +
          (match pt i with
           | none => 0
           | some pd => countPD pd f NPP) =
        countPT NPP pt f n + countPD pd' f NPP := by
  intro n
  induction n with
  | zero => intro h; omega
  | succ m ih =>
      intro h
      rw [countPT, countPT]
      by_cases hi : i = m
      · subst hi
        have : countPT NPP (updFn pt i (some pd')) f i = countPT NPP pt f i :=
          countPT_congr NPP _ _ f i fun j hj => updFn_other pt i j _ (by omega)
        rw [this, updFn_same]
        dsimp only
        omega
      · have := ih (by omega)
        rw [updFn_other pt i m _ (by omega)]
        omega

theorem countPT_zero_of (NPP : Nat) (pt : Pagetable) (f : Nat) :
    ∀ n, (∀ i pd, i < n → pt i = some pd → countPD pd f NPP = 0) →
      countPT NPP pt f n = 0 := by
  intro n
  induction n with
  | zero => intro _; rfl
  | succ m ih =>
      intro h
      rw [countPT, ih (fun i pd hi hpd => h i pd (by omega) hpd)]
      cases hm : pt m with
      | none => rfl
      | some pd => dsimp only; rw [h m pd (by omega) hm]

theorem countPT_pos (NPP : Nat) (pt : Pagetable) (f : Nat) :
    ∀ n i pd, i < n → pt i = some pd → 1 ≤ countPD pd f NPP →
      1 ≤ countPT NPP pt f n := by
  intro n
  induction n with
  | zero => intro i pd h; omega
  | succ m ih =>
      intro i pd hi hpd hc
      rw [countPT]
      by_cases him : i = m
      · subst him; rw [hpd]; dsimp only; omega
      · have := ih i pd (by omega) hpd hc; omega

theorem pteMaps_iff (pte : PTE) (f : Nat) :
    pteMaps pte f = true ↔ (pte.valid = true ∧ pte.pfn = f) := by
  rw [pteMaps]
  simp

theorem countPD_ne_zero (pd : PteDirectory) (f : Nat) :
    ∀ n, countPD pd f n ≠ 0 → ∃ j, j < n ∧ pteMaps (pd j) f = true := by
  intro n
  induction n with
  | zero => intro h; exact absurd rfl h
  | succ m ih =>
      intro h
      rw [countPD] at h
      by_cases hm : pteMaps (pd m) f = true
      · exact ⟨m, by omega, hm⟩
      · rw [if_neg hm] at h
        obtain ⟨j, hj, hmap⟩ := ih (by omega)
        exact ⟨j, by omega, hmap⟩

theorem countPT_le_one (NPP : Nat) (pt : Pagetable) (f : Nat)
    (huniq : ∀ i1 j1 i2 j2 pd1 pd2, i1 < NPP → j1 < NPP → i2 < NPP → j2 < NPP →
      pt i1 = some pd1 → pt i2 = some pd2 →
      pteMaps (pd1 j1) f = true → pteMaps (pd2 j2) f = true → i1 = i2 ∧ j1 = j2) :
    ∀ n, n ≤ NPP → countPT NPP pt f n ≤ 1 := by
  intro n
  induction n with
  | zero => intro _; rw [countPT]; omega
  | succ m ih =>
      intro h
      rw [countPT]
      cases hm : pt m with
      | none => dsimp only; have := ih (by omega); omega
      | some pd =>
          dsimp only
          by_cases hcz : countPD pd f NPP = 0
          · have := ih (by omega); omega
          · obtain ⟨j0, hj0, hmap0⟩ := countPD_ne_zero pd f NPP hcz
            have hle : countPD pd f NPP ≤ 1 := by
              apply countPD_le_one
              intro j1 j2 h1 h2 m1 m2
              exact (huniq m j1 m j2 pd pd (by omega) h1 (by omega) h2 hm hm m1 m2).2
            have hz : countPT NPP pt f m = 0 := by
              apply countPT_zero_of
              intro i2 pd2 hi2 hpd2
              apply countPD_zero_of
              intro j2 hj2
              by_contra hmap2
              rw [Bool.not_eq_false] at hmap2
              have := (huniq i2 j2 m j0 pd2 pd (by omega) hj2 (by omega) hj0
                hpd2 hm hmap2 hmap0).1
              omega
            omega

theorem countPT_eq_one (NPP : Nat) (pt : Pagetable) (f : Nat)
    (huniq : ∀ i1 j1 i2 j2 pd1 pd2, i1 < NPP → j1 < NPP → i2 < NPP → j2 < NPP →
      pt i1 = some pd1 → pt i2 = some pd2 →
      pteMaps (pd1 j1) f = true → pteMaps (pd2 j2) f = true → i1 = i2 ∧ j1 = j2)
    (i j : Nat) (pdP : PteDirectory) (hi : i < NPP) (hj : j < NPP)
    (hpd : pt i = some pdP) (hmaps : pteMaps (pdP j) f = true) :
    countPT NPP pt f NPP = 1 := by
  have h1 : 1 ≤ countPT NPP pt f NPP :=
    countPT_pos NPP pt f NPP i pdP hi hpd (countPD_pos pdP f NPP j hj hmaps)
  have h2 := countPT_le_one NPP pt f huniq NPP (Nat.le_refl _)
  omega

theorem bumpPD_apply (pd : PteDirectory) (mc : Nat → Nat) :
    ∀ n f, bumpPD pd mc n f = mc f + countPD pd f n := by
  intro n
  induction n with
  | zero => intro f; rfl
  | succ m ih =>
      intro f
      simp only [bumpPD, countPD]
      cases hv : (pd m).valid with
      | false =>
          rw [if_neg (by simp)]
          have hmap : pteMaps (pd m) f = false := by rw [pteMaps, hv]; rfl
          rw [ih f, hmap]
          simp
      | true =>
          rw [if_pos rfl]
          by_cases hf : f = (pd m).pfn
          · subst hf
            have hmap : pteMaps (pd m) (pd m).pfn = true := by
              rw [pteMaps, hv]; simp
            rw [updFn_same, ih ((pd m).pfn), hmap]
            simp
            omega
          · have hmap : pteMaps (pd m) f = false := by
              rw [pteMaps, hv]
              simp [Ne.symm hf]
            rw [updFn_other _ _ _ _ hf, ih f, hmap]
            simp

theorem bumpPT_apply (NPP : Nat) (pt : Pagetable) (mc : Nat → Nat) :
    ∀ n f, bumpPT NPP pt mc n f = mc f + countPT NPP pt f n := by
  intro n
  induction n with
  | zero => intro f; rfl
  | succ m ih =>
      intro f
      simp only [bumpPT, countPT]
      cases hm : pt m with
      | none => simp only [hm]; rw [ih f]; omega
      | some pd => simp only [hm]; rw [bumpPD_apply pd _ NPP f, ih f]; omega

theorem pteMaps_demote (pte : PTE) (f : Nat) :
    pteMaps (demote pte) f = pteMaps pte f := by
  rw [demote]
  by_cases h : pte.writable
  · rw [if_pos h, pteMaps, pteMaps]
  · rw [if_neg h]

theorem pteMaps_forkParent (pd : PteDirectory) (j f : Nat) :
    pteMaps (forkParentPD pd j) f = pteMaps (pd j) f := by
  simp only [forkParentPD]
  by_cases hv : (pd j).valid = true
  · rw [if_pos hv, pteMaps_demote]
  · rw [if_neg hv]

theorem pteMaps_forkChild (pd : PteDirectory) (j f : Nat) :
    pteMaps (forkChildPD pd j) f = pteMaps (pd j) f := by
  simp only [forkChildPD]
  by_cases hv : (pd j).valid = true
  · rw [if_pos hv]
    simp [pteMaps, hv]
  · rw [if_neg hv]
    simp only [Bool.not_eq_true] at hv
    simp [pteMaps, hv, emptyPTE]

theorem countPD_forkParent (pd : PteDirectory) (f : Nat) :
    ∀ n, countPD (forkParentPD pd) f n = countPD pd f n := by
  intro n
  induction n with
  | zero => rfl
  | succ m ih => rw [countPD, countPD, ih, pteMaps_forkParent]

theorem countPD_forkChild (pd : PteDirectory) (f : Nat) :
    ∀ n, countPD (forkChildPD pd) f n = countPD pd f n := by
  intro n
  induction n with
  | zero => rfl
  | succ m ih => rw [countPD, countPD, ih, pteMaps_forkChild]

theorem countPT_forkParent (NPP : Nat) (pt : Pagetable) (f : Nat) :
    ∀ n, n ≤ NPP → countPT NPP (forkParentPT NPP pt) f n = countPT NPP pt f n := by
  intro n
  induction n with
  | zero => intro _; rfl
  | succ m ih =>
      intro h
      rw [countPT, countPT, ih (by omega)]
      have hm : forkParentPT NPP pt m = (pt m).map forkParentPD := by
        rw [forkParentPT, if_pos (by omega)]
      rw [hm]
      cases hpt : pt m with
      | none => rfl
      | some pd => dsimp only [Option.map]; rw [countPD_forkParent]

theorem countPT_forkChild (NPP : Nat) (pt : Pagetable) (f : Nat) :
    ∀ n, n ≤ NPP → countPT NPP (forkChildPT NPP pt) f n = countPT NPP pt f n := by
  intro n
  induction n with
  | zero => intro _; rfl
  | succ m ih =>
      intro h
      rw [countPT, countPT, ih (by omega)]
      have hm : forkChildPT NPP pt m = (pt m).map forkChildPD := by
        rw [forkChildPT, if_pos (by omega)]
      rw [hm]
      cases hpt : pt m with
      | none => rfl
      | some pd => dsimp only [Option.map]; rw [countPD_forkChild]

theorem removeFirstPid_none_iff (pid : Nat) :
    ∀ l : List Process, removeFirstPid l pid = none ↔ ∀ q ∈ l, q.pid ≠ pid := by
  intro l
  induction l with
  | nil => simp [removeFirstPid]
  | cons p ps ih =>
      rw [removeFirstPid]
      by_cases hp : p.pid = pid
      · rw [if_pos hp]
        simp [hp]
      · rw [if_neg hp]
        constructor
        · intro h q hq
          rcases List.mem_cons.mp hq with rfl | hq2
          · exact hp
          · cases hrec : removeFirstPid ps pid with
            | none => exact (ih.mp hrec) q hq2
            | some v =>
                rw [hrec] at h
                obtain ⟨q2, qs⟩ := v
                exact absurd h (by simp)
        · intro h
          have hps : removeFirstPid ps pid = none :=
            ih.mpr fun q hq => h q (List.mem_cons_of_mem _ hq)
          rw [hps]

theorem removeFirstPid_split (pid : Nat) :
    ∀ (l rest : List Process) (q : Process),
      removeFirstPid l pid = some (q, rest) →
        ∃ l1 l2, l = l1 ++ q :: l2 ∧ rest = l1 ++ l2 ∧ q.pid = pid ∧
          ∀ x ∈ l1, x.pid ≠ pid := by
  intro l
  induction l with
  | nil => intro rest q h; simp [removeFirstPid] at h
  | cons p ps ih =>
      intro rest q h
      rw [removeFirstPid] at h
      by_cases hp : p.pid = pid
      · rw [if_pos hp] at h
        cases h
        exact ⟨[], ps, by simp, by simp, hp, by simp⟩
      · rw [if_neg hp] at h
        cases hrec : removeFirstPid ps pid with
        | none => rw [hrec] at h; exact absurd h (by simp)
        | some v =>
            obtain ⟨q2, qs⟩ := v
            rw [hrec] at h
            simp only [Option.some.injEq, Prod.mk.injEq] at h
            obtain ⟨rfl, rfl⟩ := h
            obtain ⟨l1, l2, he1, he2, he3, he4⟩ := ih qs q2 hrec
            refine ⟨p :: l1, l2, by simp [he1], by simp [he2], he3, ?_⟩
            intro x hx
            rcases List.mem_cons.mp hx with rfl | hx
            · exact hp
            · exact he4 x hx

theorem sumPT_append (NPP : Nat) (l1 l2 : List Process) (f : Nat) :
    sumPT NPP (l1 ++ l2) f = sumPT NPP l1 f + sumPT NPP l2 f := by
  rw [sumPT, sumPT, sumPT, List.map_append, List.sum_append]

theorem sumPT_cons (NPP : Nat) (p : Process) (l : List Process) (f : Nat) :
    sumPT NPP (p :: l) f = countPT NPP p.pagetable f NPP + sumPT NPP l f := by
  rw [sumPT, sumPT, List.map_cons, List.sum_cons]

theorem countTag_cons (p : Process) (l : List Process) (t : Nat) :
    countTag (p :: l) t = (if p.tag = t then 1 else 0) + countTag l t := by
  rw [countTag, countTag, List.countP_cons]
  by_cases h : p.tag = t
  · simp [h]; omega
  · simp [h]

theorem countTag_append (l1 l2 : List Process) (t : Nat) :
    countTag (l1 ++ l2) t = countTag l1 t + countTag l2 t := by
  rw [countTag, countTag, countTag, List.countP_append]

theorem countTag_eq_zero (l : List Process) (t : Nat)
    (h : ∀ q ∈ l, q.tag ≠ t) : countTag l t = 0 := by
  rw [countTag, List.countP_eq_zero]
  intro q hq
  simpa using h q hq

theorem countTag_zero_mem (l : List Process) (t : Nat)
    (h : countTag l t = 0) : ∀ q ∈ l, q.tag ≠ t := by
  rw [countTag, List.countP_eq_zero] at h
  intro q hq
  simpa using h q hq

theorem vpnPTE_eq_none (NPP : Nat) (pt : Pagetable) (vpn : Nat)
    (h : pt (vpn / NPP) = none) : vpnPTE NPP pt vpn = none := by
  rw [vpnPTE, h]

theorem vpnPTE_eq_some (NPP : Nat) (pt : Pagetable) (vpn : Nat) (pd : PteDirectory)
    (h : pt (vpn / NPP) = some pd) : vpnPTE NPP pt vpn = some (pd (vpn % NPP)) := by
  rw [vpnPTE, h]

theorem countPD_empty (f : Nat) : ∀ n, countPD emptyPD f n = 0 := by
  intro n
  exact countPD_zero_of emptyPD f n fun j hj => rfl

theorem countPT_set_pte (NPP : Nat) (pt : Pagetable) (pdi pti : Nat)
    (pd : PteDirectory) (pteNew : PTE)
    (hpd : pt pdi = some pd) (hip : pdi < NPP) (hjp : pti < NPP) (f : Nat) :
    countPT NPP (updFn pt pdi (some (updFn pd pti pteNew))) f NPP
      + (if pteMaps (pd pti) f then 1 else 0) =
    countPT NPP pt f NPP + (if pteMaps pteNew f then 1 else 0) := by
  have h1 := countPT_upd NPP pt pdi (updFn pd pti pteNew) f NPP hip
  rw [hpd] at h1
  dsimp only at h1
  have h2 := countPD_upd pd pti pteNew f NPP hjp
  omega

theorem countPT_ensure (NPP : Nat) (pt : Pagetable) (pdi : Nat)
    (hpd : pt pdi = none) (hip : pdi < NPP) (f : Nat) :
    countPT NPP (updFn pt pdi (some emptyPD)) f NPP = countPT NPP pt f NPP := by
  have h1 := countPT_upd NPP pt pdi emptyPD f NPP hip
  rw [hpd] at h1
  dsimp only at h1
  have h2 := countPD_empty f NPP
  omega

theorem validAt_some (NPP : Nat) (pt : Pagetable) (vpn : Nat) (pd : PteDirectory)
    (hpd : pt (vpn / NPP) = some pd) :
    validAt NPP pt vpn = (pd (vpn % NPP)).valid := by
  simp only [validAt, vpnPTE, hpd]

theorem validAt_noneD (NPP : Nat) (pt : Pagetable) (vpn : Nat)
    (h : pt (vpn / NPP) = none) : validAt NPP pt vpn = false := by
  simp only [validAt, vpnPTE, h]

theorem idx_lt (NPP vpn : Nat) (h : vpn < NPP * NPP) :
    vpn / NPP < NPP ∧ vpn % NPP < NPP := by
  have hNP : 0 < NPP := by
    by_contra h0
    simp only [Nat.not_lt, Nat.le_zero] at h0
    subst h0
    simp at h
  exact ⟨Nat.div_lt_of_lt_mul h, Nat.mod_lt _ hNP⟩

theorem sumPT_remove (NPP : Nat) (pid : Nat) (l rest : List Process) (temp : Process)
    (h : removeFirstPid l pid = some (temp, rest)) (f : Nat) :
    sumPT NPP rest f + countPT NPP temp.pagetable f NPP = sumPT NPP l f := by
  obtain ⟨l1, l2, he1, he2, _, _⟩ := removeFirstPid_split pid l rest temp h
  subst he1
  subst he2
  rw [sumPT_append, sumPT_append, sumPT_cons]
  omega

theorem pteMaps_mk (w p : Bool) (num f : Nat) :
    pteMaps { valid := true, writable := w, pfn := num, priv := p } f = (num == f) := by
  rw [pteMaps]
  simp

theorem countPT_set_pte_inv (NPP : Nat) (pt : Pagetable) (pdi pti : Nat)
    (pd : PteDirectory) (pteNew : PTE)
    (hpd : pt pdi = some pd) (hip : pdi < NPP) (hjp : pti < NPP)
    (hold : (pd pti).valid = false) (f : Nat) :
    countPT NPP (updFn pt pdi (some (updFn pd pti pteNew))) f NPP =
      countPT NPP pt f NPP + (if pteMaps pteNew f then 1 else 0) := by
  have h1 := countPT_set_pte NPP pt pdi pti pd pteNew hpd hip hjp f
  have hm : pteMaps (pd pti) f = false := by
    rw [pteMaps, hold]
    rfl
  rw [hm] at h1
  simp only [Bool.false_eq_true, if_false] at h1
  omega

theorem countTag_le_one (l : List Process)
    (hdist : ∀ q ∈ l, countTag l q.tag = 1) : ∀ t, countTag l t ≤ 1 := by
  intro t
  by_cases h : countTag l t = 0
  · omega
  · have hpos : 0 < l.countP (fun p => p.tag == t) := by
      rw [← countTag]
      exact Nat.pos_of_ne_zero h
    obtain ⟨q, hq, hqt⟩ := List.countP_pos_iff.mp hpos
    have hqt2 : q.tag = t := by simpa using hqt
    subst hqt2
    have := hdist q hq
    omega

theorem countTag_remove (pid : Nat) (l rest : List Process) (temp : Process)
    (h : removeFirstPid l pid = some (temp, rest)) (t : Nat) :
    countTag rest t + (if temp.tag = t then 1 else 0) = countTag l t := by
  obtain ⟨l1, l2, he1, he2, _, _⟩ := removeFirstPid_split pid l rest temp h
  subst he1
  subst he2
  rw [countTag_append, countTag_append, countTag_cons]
  omega

theorem removeFirstPid_mem (pid : Nat) (l rest : List Process) (temp : Process)
    (h : removeFirstPid l pid = some (temp, rest)) : temp ∈ l := by
  obtain ⟨l1, l2, he1, _, _, _⟩ := removeFirstPid_split pid l rest temp h
  rw [he1]
  simp

theorem alloc_preserves_refInv
    (NPP NPF : Nat) (s : State) (vpn rw : Nat)
    (hal : s.ptbr = s.current.pagetable)
    (hvpn : vpn < NPP * NPP)
    (hnv : validAt NPP s.current.pagetable vpn = false)
    (hinv : refInv NPP NPF s) :
    refInv NPP NPF (alloc_page NPP NPF s vpn rw).2 := by
  obtain ⟨hip, hjp⟩ := idx_lt NPP vpn hvpn
  have hcPT : countPT NPP s.ptbr = countPT NPP s.current.pagetable := by rw [hal]
  cases hscan : scanFree s.mapcounts NPF with
  | none =>
      cases hpt : s.ptbr (vpn / NPP) with
      | none =>
          simp only [alloc_page, hpt, hscan]
          intro f hf
          have h1 : countState NPP (setPT s (updFn s.ptbr (vpn / NPP) (some emptyPD))) f
              = countState NPP s f := by
            simp only [countState, setPT]
            rw [countPT_ensure NPP s.ptbr (vpn / NPP) hpt hip f, hal]
          rw [h1]
          exact hinv f hf
      | some pd0 =>
          simp only [alloc_page, hpt, hscan]
          intro f hf
          have h1 : countState NPP (setPT s s.ptbr) f = countState NPP s f := by
            simp only [countState, setPT]
            rw [hal]
          rw [h1]
          exact hinv f hf
  | some num =>
      obtain ⟨hz, hlt, hmin⟩ := scanFree_some_spec s.mapcounts NPF num hscan
      cases hpt : s.ptbr (vpn / NPP) with
      | none =>
          simp only [alloc_page, hpt, hscan, updFn_same, Option.getD_some]
          intro f hf
          have hpt1 : updFn s.ptbr (vpn / NPP) (some emptyPD) (vpn / NPP) = some emptyPD :=
            updFn_same _ _ _
          have hset := countPT_set_pte_inv NPP (updFn s.ptbr (vpn / NPP) (some emptyPD))
            (vpn / NPP) (vpn % NPP) emptyPD
            { valid := true, writable := rw == 3, pfn := num, priv := false }
            hpt1 hip hjp rfl f
          rw [countPT_ensure NPP s.ptbr (vpn / NPP) hpt hip f] at hset
          have h2 := hinv f hf
          rw [countState] at h2
          show updFn s.mapcounts num (s.mapcounts num + 1) f = _
          simp only [countState, setPT]
          rw [hset, pteMaps_mk, hcPT]
          by_cases hfn : f = num
          · subst hfn
            rw [updFn_same, if_pos (by simp)]
            omega
          · rw [updFn_other _ _ _ _ hfn,
              if_neg (by simpa using fun h => hfn h.symm)]
            omega
      | some pd0 =>
          have hv0 : (pd0 (vpn % NPP)).valid = false := by
            rw [← validAt_some NPP s.current.pagetable vpn pd0 (by rw [← hal]; exact hpt)]
            exact hnv
          simp only [alloc_page, hpt, hscan, updFn_same, Option.getD_some]
          intro f hf
          have hset := countPT_set_pte_inv NPP s.ptbr (vpn / NPP) (vpn % NPP) pd0
            { valid := true, writable := rw == 3, pfn := num, priv := false }
            hpt hip hjp hv0 f
          have h2 := hinv f hf
          rw [countState] at h2
          show updFn s.mapcounts num (s.mapcounts num + 1) f = _
          simp only [countState, setPT]
          rw [hset, pteMaps_mk, hcPT]
          by_cases hfn : f = num
          · subst hfn
            rw [updFn_same, if_pos (by simp)]
            omega
          · rw [updFn_other _ _ _ _ hfn,
              if_neg (by simpa using fun h => hfn h.symm)]
            omega

theorem free_preserves_refInv
    (NPP NPF : Nat) (s : State) (vpn : Nat) (s' : State)
    (hal : s.ptbr = s.current.pagetable)
    (hvpn : vpn < NPP * NPP)
    (hv : validAt NPP s.current.pagetable vpn = true)
    (hinv : refInv NPP NPF s)
    (hrun : free_page NPP s vpn = some s') :
    refInv NPP NPF s' := by
  obtain ⟨hip, hjp⟩ := idx_lt NPP vpn hvpn
  have hcPT : countPT NPP s.ptbr = countPT NPP s.current.pagetable := by rw [hal]
  cases hpt : s.ptbr (vpn / NPP) with
  | none =>
      rw [validAt_noneD NPP s.current.pagetable vpn (by rw [← hal]; exact hpt)] at hv
      exact absurd hv (by simp)
  | some pd =>
      have hval : (pd (vpn % NPP)).valid = true := by
        rw [← validAt_some NPP s.current.pagetable vpn pd (by rw [← hal]; exact hpt)]
        exact hv
      simp only [free_page, hpt, Option.some.injEq] at hrun
      subst hrun
      intro f hf
      have hset := countPT_set_pte NPP s.ptbr (vpn / NPP) (vpn % NPP) pd
        { valid := false, writable := false, pfn := 0, priv := (pd (vpn % NPP)).priv }
        hpt hip hjp f
      have hold : pteMaps (pd (vpn % NPP)) f = ((pd (vpn % NPP)).pfn == f) := by
        rw [pteMaps, hval]
        simp
      have hnewm : pteMaps
          { valid := false, writable := false, pfn := 0,
            priv := (pd (vpn % NPP)).priv } f = false := rfl
      rw [hold, hnewm] at hset
      simp only [Bool.false_eq_true, if_false] at hset
      rw [hcPT] at hset
      have h2 := hinv f hf
      rw [countState] at h2
      show updFn s.mapcounts (pd (vpn % NPP)).pfn
        (s.mapcounts (pd (vpn % NPP)).pfn - 1) f = _
      simp only [countState, setPT]
      by_cases hfp : f = (pd (vpn % NPP)).pfn
      · rw [hfp] at hset h2 ⊢
        rw [updFn_same]
        rw [if_pos (by simp)] at hset
        have hpos : 1 ≤ countPT NPP s.current.pagetable ((pd (vpn % NPP)).pfn) NPP := by
          rw [← hcPT]
          apply countPT_pos NPP s.ptbr _ NPP (vpn / NPP) pd hip hpt
          apply countPD_pos pd _ NPP (vpn % NPP) hjp
          rw [pteMaps, hval]
          simp
        omega
      · rw [updFn_other _ _ _ _ hfp]
        rw [if_neg (by simpa using fun h => hfp h.symm)] at hset
        omega

theorem fault_preserves_refInv
    (NPP NPF : Nat) (s : State) (vpn rw : Nat) (b : Bool) (s' : State)
    (hal : s.ptbr = s.current.pagetable)
    (hvpn : vpn < NPP * NPP)
    (hpv : ∀ pd, s.current.pagetable (vpn / NPP) = some pd →
      (pd (vpn % NPP)).writable = false → (pd (vpn % NPP)).priv = true →
      (pd (vpn % NPP)).valid = true)
    (hinv : refInv NPP NPF s)
    (hrun : handle_page_fault NPP NPF s vpn rw = some (b, s')) :
    refInv NPP NPF s' := by
  obtain ⟨hip, hjp⟩ := idx_lt NPP vpn hvpn
  have hcPT : countPT NPP s.ptbr = countPT NPP s.current.pagetable := by rw [hal]
  by_cases hr : rw = RW_READ
  · simp only [handle_page_fault] at hrun
    rw [if_pos hr] at hrun
    simp only [Option.some.injEq, Prod.mk.injEq] at hrun
    rw [← hrun.2]
    exact hinv
  · simp only [handle_page_fault] at hrun
    rw [if_neg hr] at hrun
    cases hpt : s.ptbr (vpn / NPP) with
    | none => rw [hpt] at hrun; exact absurd hrun (by simp)
    | some pd =>
        rw [hpt] at hrun
        dsimp only at hrun
        cases hcond : (!(pd (vpn % NPP)).writable && (pd (vpn % NPP)).priv) with
        | false =>
            rw [hcond] at hrun
            simp only [Bool.false_eq_true, if_false, Option.some.injEq,
              Prod.mk.injEq] at hrun
            rw [← hrun.2]
            exact hinv
        | true =>
            rw [hcond, if_pos rfl] at hrun
            obtain ⟨hw, hp⟩ : (pd (vpn % NPP)).writable = false ∧
                (pd (vpn % NPP)).priv = true := by
              have := hcond
              simp only [Bool.and_eq_true, Bool.not_eq_true'] at this
              exact this
            have hval := hpv pd (by rw [← hal]; exact hpt) hw hp
            by_cases hmc1 : s.mapcounts (pd (vpn % NPP)).pfn = 1
            · rw [if_pos hmc1] at hrun
              simp only [Option.some.injEq, Prod.mk.injEq] at hrun
              rw [← hrun.2]
              intro f hf
              have hset := countPT_set_pte NPP s.ptbr (vpn / NPP) (vpn % NPP) pd
                { pd (vpn % NPP) with writable := true, priv := false } hpt hip hjp f
              have hsame : pteMaps { pd (vpn % NPP) with writable := true, priv := false } f
                  = pteMaps (pd (vpn % NPP)) f := by
                rw [pteMaps, pteMaps]
              rw [hsame] at hset
              dsimp only at hset
              rw [hcPT] at hset
              have h2 := hinv f hf
              rw [countState] at h2
              show s.mapcounts f = _
              simp only [countState, setPT]
              omega
            · rw [if_neg hmc1] at hrun
              cases hscan : scanFree s.mapcounts NPF with
              | none =>
                  rw [hscan] at hrun
                  simp only [Option.some.injEq, Prod.mk.injEq] at hrun
                  rw [← hrun.2]
                  exact hinv
              | some num =>
                  rw [hscan] at hrun
                  obtain ⟨hz, hlt, hmin⟩ := scanFree_some_spec s.mapcounts NPF num hscan
                  simp only [Option.some.injEq, Prod.mk.injEq] at hrun
                  rw [← hrun.2]
                  intro f hf
                  have hpfnpos : (pd (vpn % NPP)).pfn < NPF →
                      1 ≤ s.mapcounts (pd (vpn % NPP)).pfn := by
                    intro hpf
                    have h2 := hinv _ hpf
                    have hpos : 1 ≤ countPT NPP s.current.pagetable
                        ((pd (vpn % NPP)).pfn) NPP := by
                      rw [← hcPT]
                      apply countPT_pos NPP s.ptbr _ NPP (vpn / NPP) pd hip hpt
                      apply countPD_pos pd _ NPP (vpn % NPP) hjp
                      rw [pteMaps, hval]
                      simp
                    rw [countState] at h2
                    omega
                  have hnp : num ≠ (pd (vpn % NPP)).pfn := by
                    by_cases hpf : (pd (vpn % NPP)).pfn < NPF
                    · have := hpfnpos hpf
                      intro he
                      rw [he] at hz
                      omega
                    · intro he
                      rw [he] at hlt
                      omega
                  have hset := countPT_set_pte NPP s.ptbr (vpn / NPP) (vpn % NPP) pd
                    { pd (vpn % NPP) with pfn := num, writable := true, priv := false }
                    hpt hip hjp f
                  have hmapsOld : pteMaps (pd (vpn % NPP)) f
                      = ((pd (vpn % NPP)).pfn == f) := by
                    rw [pteMaps, hval]
                    simp
                  have hnewm : pteMaps
                      { pd (vpn % NPP) with
                        pfn := num, writable := true, priv := false } f = (num == f) := by
                    rw [pteMaps]
                    dsimp only
                    rw [hval]
                    simp
                  rw [hnewm, hmapsOld] at hset
                  dsimp only at hset
                  rw [hcPT] at hset
                  have h2 := hinv f hf
                  rw [countState] at h2
                  show updFn (updFn s.mapcounts (pd (vpn % NPP)).pfn
                      (s.mapcounts (pd (vpn % NPP)).pfn - 1)) num
                      (updFn s.mapcounts (pd (vpn % NPP)).pfn
                        (s.mapcounts (pd (vpn % NPP)).pfn - 1) num + 1) f = _
                  simp only [countState, setPT]
                  by_cases hfn : f = num
                  · subst hfn
                    rw [updFn_same, updFn_other _ _ _ _ hnp]
                    rw [if_neg (show ¬ (((pd (vpn % NPP)).pfn == f) = true) by
                        simpa using Ne.symm hnp),
                      if_pos (show (f == f) = true by simp)] at hset
                    omega
                  · rw [updFn_other _ _ _ _ hfn]
                    rw [if_neg (show ¬ ((num == f) = true) by
                        simpa using Ne.symm hfn)] at hset
                    by_cases hfp : f = (pd (vpn % NPP)).pfn
                    · rw [hfp] at hset h2 ⊢
                      rw [updFn_same]
                      rw [if_pos (show (((pd (vpn % NPP)).pfn ==
                        (pd (vpn % NPP)).pfn) = true) by simp)] at hset
                      have := hpfnpos (hfp ▸ hf)
                      omega
                    · rw [updFn_other _ _ _ _ hfp]
                      rw [if_neg (show ¬ ((((pd (vpn % NPP)).pfn) == f) = true) by
                        simpa using Ne.symm hfp)] at hset
                      omega

theorem switch_preserves_refInv
    (NPP NPF : Nat) (s : State) (pid : Nat)
    (hal : s.ptbr = s.current.pagetable)
    (hinv : refInv NPP NPF s) :
    refInv NPP NPF (switch_process NPP s pid) := by
  have hcPT : countPT NPP s.ptbr = countPT NPP s.current.pagetable := by rw [hal]
  cases hrm : removeFirstPid s.processes pid with
  | some v =>
      obtain ⟨temp, rest⟩ := v
      simp only [switch_process, hrm]
      intro f hf
      have h2 := hinv f hf
      rw [countState] at h2
      have hs := sumPT_remove NPP pid s.processes rest temp hrm f
      show s.mapcounts f = _
      simp only [countState]
      rw [sumPT_cons]
      omega
  | none =>
      simp only [switch_process, hrm]
      intro f hf
      have h2 := hinv f hf
      rw [countState] at h2
      show bumpPT NPP s.ptbr s.mapcounts NPP f = _
      rw [bumpPT_apply]
      simp only [countState]
      rw [sumPT_cons]
      dsimp only
      rw [countPT_forkChild NPP s.ptbr f NPP (Nat.le_refl _),
        countPT_forkParent NPP s.ptbr f NPP (Nat.le_refl _), hcPT]
      omega

/-- Claim C1, amended.  Reference-count conservation as stated is
false of the program: `C1_refcount_counterexample` exhibits a reachable
state where the invariant holds, yet a `handle_page_fault` call (on an
invalid-but-private entry, the residue `free_page` leaves because it
does not clear the COW marker) takes the shared-duplication path and
breaks conservation.  The amended claim proved here: if `mapcounts`
agrees with the number of valid PTEs mapping each frame across all
processes (current plus ready queue), then it still does after
`alloc_page` on an in-range vpn that is not currently mapped, after
`free_page` on an in-range vpn that is currently mapped, after
`switch_process` unconditionally in both branches, and after
`handle_page_fault` provided additionally that a non-writable private
entry at the faulted vpn is valid (the genuine COW fault of spec §4.4)
— the proviso the counterexample forces.  `hal` is the framework's
standing aliasing invariant `ptbr = &current->pagetable`. -/
theorem C1_refcount_conservation
    (NPP NPF : Nat) (s : State)
    (hal : s.ptbr = s.current.pagetable)
    (hinv : refInv NPP NPF s) :
    (∀ vpn rw, vpn < NPP * NPP → validAt NPP s.current.pagetable vpn = false →
      refInv NPP NPF (alloc_page NPP NPF s vpn rw).2) ∧
    (∀ vpn s', vpn < NPP * NPP → validAt NPP s.current.pagetable vpn = true →
      free_page NPP s vpn = some s' → refInv NPP NPF s') ∧
    (∀ vpn rw b s', vpn < NPP * NPP →
      (∀ pd, s.current.pagetable (vpn / NPP) = some pd →
        (pd (vpn % NPP)).writable = false → (pd (vpn % NPP)).priv = true →
        (pd (vpn % NPP)).valid = true) →
      handle_page_fault NPP NPF s vpn rw = some (b, s') → refInv NPP NPF s') ∧
    (∀ pid, refInv NPP NPF (switch_process NPP s pid)) :=
  ⟨fun vpn rw hvpn hnv => alloc_preserves_refInv NPP NPF s vpn rw hal hvpn hnv hinv,
   fun vpn s' hvpn hv hrun => free_preserves_refInv NPP NPF s vpn s' hal hvpn hv hinv hrun,
   fun vpn rw b s' hvpn hpv hrun =>
     fault_preserves_refInv NPP NPF s vpn rw b s' hal hvpn hpv hinv hrun,
   fun pid => switch_preserves_refInv NPP NPF s pid hal hinv⟩

/-! ### Concrete states used by witnesses and counterexamples -/

/-- A concrete inner directory: one valid, non-writable, private entry
at index 0 mapping frame 0. -/
def pdS : PteDirectory :=
  fun j =>
    if j = 0 then { valid := true, writable := false, pfn := 0, priv := true }
    else emptyPTE

/-- A concrete page table whose first inner directory is `pdS`. -/
def ptS : Pagetable := fun i => if i = 0 then some pdS else none

/-- Sole-owner COW state: one process, one private read-only mapping of
frame 0, reference count 1 (with `NPP = 2`, `NPF = 4`). -/
def sSole : State :=
  { current := { tag := 0, pid := 1, pagetable := ptS },
    processes := [],
    ptbr := ptS,
    mapcounts := fun f => if f = 0 then 1 else 0,
    frames := fun _ => 0,
    nextTag := 1 }

/-! ### Claim theorems -/

/-- Claim C3.  COW sole-owner promotion: if the current process has a
valid, non-writable, private PTE for `vpn` whose frame has reference
count exactly 1, then `handle_page_fault (vpn, RW_WRITE)` succeeds, the
PTE becomes writable and non-private with its frame field (and
validity) unchanged, no reference count of any frame is modified — so
no new frame is allocated — and no other directory or process is
touched. -/
theorem C3_sole_owner_promotion
    (NPP NPF : Nat) (s : State) (vpn : Nat) (pd : PteDirectory)
    (hal : s.ptbr = s.current.pagetable)
    (hpd : s.current.pagetable (vpn / NPP) = some pd)
    (hv : (pd (vpn % NPP)).valid = true)
    (hw : (pd (vpn % NPP)).writable = false)
    (hp : (pd (vpn % NPP)).priv = true)
    (hc : s.mapcounts (pd (vpn % NPP)).pfn = 1) :
    ∃ s', handle_page_fault NPP NPF s vpn RW_WRITE = some (true, s') ∧
      s'.mapcounts = s.mapcounts ∧
      s'.current.pagetable (vpn / NPP) =
        some (updFn pd (vpn % NPP)
          { pd (vpn % NPP) with writable := true, priv := false }) ∧
      (∀ i, i ≠ vpn / NPP → s'.current.pagetable i = s.current.pagetable i) ∧
      s'.processes = s.processes ∧ s'.current.pid = s.current.pid := by
  have hpd' : s.ptbr (vpn / NPP) = some pd := by rw [hal]; exact hpd
  refine ⟨setPT s (updFn s.ptbr (vpn / NPP)
      (some (updFn pd (vpn % NPP)
        { pd (vpn % NPP) with writable := true, priv := false }))), ?_, rfl, ?_, ?_, rfl, rfl⟩
  · simp only [handle_page_fault, hpd']
    rw [if_neg (by rw [RW_WRITE, RW_READ]; omega), hw, hp]
    simp only [Bool.not_false, Bool.and_self, if_true, hc, if_pos rfl]
  · simp only [setPT]
    exact updFn_same _ _ _
  · intro i hi
    simp only [setPT]
    rw [updFn_other _ _ _ _ hi, hal]

/-- Witness for C3: applied to the concrete sole-owner state `sSole`
at vpn 0. -/
theorem C3_sole_owner_promotion_witness :
    ∃ s', handle_page_fault 2 4 sSole 0 RW_WRITE = some (true, s') ∧
      s'.mapcounts = sSole.mapcounts ∧
      s'.current.pagetable (0 / 2) =
        some (updFn pdS (0 % 2)
          { pdS (0 % 2) with writable := true, priv := false }) ∧
      (∀ i, i ≠ 0 / 2 → s'.current.pagetable i = sSole.current.pagetable i) ∧
      s'.processes = sSole.processes ∧ s'.current.pid = sSole.current.pid :=
  C3_sole_owner_promotion 2 4 sSole 0 pdS rfl rfl rfl rfl rfl rfl

/-- Claim C2.  COW shared duplication: if the current process has a
valid, non-writable, private PTE for `vpn` whose frame has reference
count at least 2, then a write fault succeeds whenever a free frame
exists, claims the smallest-indexed free frame, decrements the old
frame's count, sets the new frame's count to 1, retargets the PTE to
the new frame with `writable := true` and `private := false`, and
leaves the ready processes (hence every other process's mapping of the
old frame) unchanged; if no free frame exists the fault fails with the
state returned exactly unchanged. -/
theorem C2_shared_duplication
    (NPP NPF : Nat) (s : State) (vpn : Nat) (pd : PteDirectory)
    (hal : s.ptbr = s.current.pagetable)
    (hpd : s.current.pagetable (vpn / NPP) = some pd)
    (hv : (pd (vpn % NPP)).valid = true)
    (hw : (pd (vpn % NPP)).writable = false)
    (hp : (pd (vpn % NPP)).priv = true)
    (hc : 2 ≤ s.mapcounts (pd (vpn % NPP)).pfn) :
    (∀ f0, f0 < NPF → s.mapcounts f0 = 0 →
      ∃ num s', handle_page_fault NPP NPF s vpn RW_WRITE = some (true, s') ∧
        s.mapcounts num = 0 ∧ (∀ k, k < num → s.mapcounts k ≠ 0) ∧ num < NPF ∧
        s'.mapcounts (pd (vpn % NPP)).pfn = s.mapcounts (pd (vpn % NPP)).pfn - 1 ∧
        s'.mapcounts num = 1 ∧
        (∀ f, f ≠ num → f ≠ (pd (vpn % NPP)).pfn → s'.mapcounts f = s.mapcounts f) ∧
        s'.current.pagetable (vpn / NPP) =
          some (updFn pd (vpn % NPP)
            { pd (vpn % NPP) with pfn := num, writable := true, priv := false }) ∧
        (∀ i, i ≠ vpn / NPP → s'.current.pagetable i = s.current.pagetable i) ∧
        s'.processes = s.processes) ∧
    ((∀ f, f < NPF → s.mapcounts f ≠ 0) →
      handle_page_fault NPP NPF s vpn RW_WRITE = some (false, s)) := by
  have hpd' : s.ptbr (vpn / NPP) = some pd := by rw [hal]; exact hpd
  have hne1 : s.mapcounts (pd (vpn % NPP)).pfn ≠ 1 := by omega
  constructor
  · intro f0 h0 hf
    obtain ⟨num, hscan⟩ := scanFree_isSome s.mapcounts NPF f0 h0 hf
    obtain ⟨hz, hlt, hmin⟩ := scanFree_some_spec s.mapcounts NPF num hscan
    have hnp : num ≠ (pd (vpn % NPP)).pfn := by
      intro e; rw [e] at hz; omega
    refine ⟨num,
      { setPT s (updFn s.ptbr (vpn / NPP)
          (some (updFn pd (vpn % NPP)
            { pd (vpn % NPP) with pfn := num, writable := true, priv := false }))) with
          mapcounts :=
            updFn (updFn s.mapcounts (pd (vpn % NPP)).pfn
                (s.mapcounts (pd (vpn % NPP)).pfn - 1)) num
              (updFn s.mapcounts (pd (vpn % NPP)).pfn
                (s.mapcounts (pd (vpn % NPP)).pfn - 1) num + 1) },
      ?_, hz, hmin, hlt, ?_, ?_, ?_, ?_, ?_, rfl⟩
    · simp only [handle_page_fault, hpd']
      rw [if_neg (by rw [RW_WRITE, RW_READ]; omega), hw, hp]
      simp only [Bool.not_false, Bool.and_self, if_true, if_neg hne1, hscan]
    · show updFn (updFn s.mapcounts _ _) num _ (pd (vpn % NPP)).pfn = _
      rw [updFn_other _ _ _ _ (Ne.symm hnp), updFn_same]
    · show updFn (updFn s.mapcounts _ _) num _ num = 1
      rw [updFn_same, updFn_other _ _ _ _ hnp, hz]
    · intro f hf1 hf2
      show updFn (updFn s.mapcounts _ _) num _ f = s.mapcounts f
      rw [updFn_other _ _ _ _ hf1, updFn_other _ _ _ _ hf2]
    · show updFn s.ptbr (vpn / NPP) _ (vpn / NPP) = _
      exact updFn_same _ _ _
    · intro i hi
      show updFn s.ptbr (vpn / NPP) _ i = _
      rw [updFn_other _ _ _ _ hi, hal]
  · intro hall
    have hnone : scanFree s.mapcounts NPF = none := by
      cases h : scanFree s.mapcounts NPF with
      | none => rfl
      | some k =>
          obtain ⟨hk0, hkN, _⟩ := scanFree_some_spec s.mapcounts NPF k h
          exact absurd hk0 (hall k hkN)
    simp only [handle_page_fault, hpd']
    rw [if_neg (by rw [RW_WRITE, RW_READ]; omega), hw, hp]
    simp only [Bool.not_false, Bool.and_self, if_true, if_neg hne1, hnone]

/-- Shared-frame COW state: two processes share frame 0 through
private read-only mappings (reference count 2); frames 1–3 free
(with `NPP = 2`, `NPF = 4`). -/
def sShare : State :=
  { current := { tag := 0, pid := 1, pagetable := ptS },
    processes := [{ tag := 1, pid := 2, pagetable := ptS }],
    ptbr := ptS,
    mapcounts := fun f => if f = 0 then 2 else 0,
    frames := fun f => if f = 0 then 42 else 0,
    nextTag := 2 }

/-- Witness for C2: applied to the concrete shared state `sShare` at
vpn 0 (both the success branch, with free frame 1, and the vacuous
exhaustion branch are instantiated). -/
theorem C2_shared_duplication_witness :
    (∀ f0, f0 < 4 → sShare.mapcounts f0 = 0 →
      ∃ num s', handle_page_fault 2 4 sShare 0 RW_WRITE = some (true, s') ∧
        sShare.mapcounts num = 0 ∧ (∀ k, k < num → sShare.mapcounts k ≠ 0) ∧ num < 4 ∧
        s'.mapcounts (pdS (0 % 2)).pfn = sShare.mapcounts (pdS (0 % 2)).pfn - 1 ∧
        s'.mapcounts num = 1 ∧
        (∀ f, f ≠ num → f ≠ (pdS (0 % 2)).pfn → s'.mapcounts f = sShare.mapcounts f) ∧
        s'.current.pagetable (0 / 2) =
          some (updFn pdS (0 % 2)
            { pdS (0 % 2) with pfn := num, writable := true, priv := false }) ∧
        (∀ i, i ≠ 0 / 2 → s'.current.pagetable i = sShare.current.pagetable i) ∧
        s'.processes = sShare.processes) ∧
    ((∀ f, f < 4 → sShare.mapcounts f ≠ 0) →
      handle_page_fault 2 4 sShare 0 RW_WRITE = some (false, sShare)) :=
  C2_shared_duplication 2 4 sShare 0 pdS rfl rfl rfl rfl rfl (by decide)

/-- Claim C4.  `alloc_page` postcondition: the scan claims the first
frame (in increasing index order) whose reference count is zero; on
success the entry becomes valid with `writable = (rw == 3)` (only the
read-write mode value `0x03 = RW_READ | RW_WRITE` sets the bit),
`pfn = num`, `private = false`, that frame's count is incremented to 1,
every other count and every other page-table slot is unchanged, and the
frame number is returned; if no frame is free the sentinel (`none`,
the C `-1`) is returned with no reference count and no PTE modified. -/
theorem C4_alloc_page_post
    (NPP NPF : Nat) (s : State) (vpn rw : Nat)
    (hal : s.ptbr = s.current.pagetable) :
    (∀ f0, f0 < NPF → s.mapcounts f0 = 0 →
      ∃ num s', alloc_page NPP NPF s vpn rw = (some num, s') ∧
        s.mapcounts num = 0 ∧ (∀ k, k < num → s.mapcounts k ≠ 0) ∧ num < NPF ∧
        vpnPTE NPP s'.current.pagetable vpn =
          some { valid := true, writable := rw == 3, pfn := num, priv := false } ∧
        s'.mapcounts num = s.mapcounts num + 1 ∧ s'.mapcounts num = 1 ∧
        (∀ f, f ≠ num → s'.mapcounts f = s.mapcounts f) ∧
        (∀ v, v / NPP ≠ vpn / NPP ∨ v % NPP ≠ vpn % NPP →
          (vpnPTE NPP s'.current.pagetable v).getD emptyPTE =
            (vpnPTE NPP s.current.pagetable v).getD emptyPTE) ∧
        s'.processes = s.processes) ∧
    ((∀ f, f < NPF → s.mapcounts f ≠ 0) →
      ∃ s', alloc_page NPP NPF s vpn rw = (none, s') ∧
        s'.mapcounts = s.mapcounts ∧
        (∀ v, (vpnPTE NPP s'.current.pagetable v).getD emptyPTE =
          (vpnPTE NPP s.current.pagetable v).getD emptyPTE) ∧
        s'.processes = s.processes) := by
  constructor
  · intro f0 h0 hf
    obtain ⟨num, hscan⟩ := scanFree_isSome s.mapcounts NPF f0 h0 hf
    obtain ⟨hz, hlt, hmin⟩ := scanFree_some_spec s.mapcounts NPF num hscan
    cases hpt : s.ptbr (vpn / NPP) with
    | none =>
        refine ⟨num,
          { setPT s (updFn (updFn s.ptbr (vpn / NPP) (some emptyPD)) (vpn / NPP)
              (some (updFn emptyPD (vpn % NPP)
                { valid := true, writable := rw == 3, pfn := num, priv := false }))) with
              mapcounts := updFn s.mapcounts num (s.mapcounts num + 1) },
          ?_, hz, hmin, hlt, ?_, ?_, ?_, ?_, ?_, rfl⟩
        · simp only [alloc_page, hpt, hscan, updFn_same, Option.getD_some]
        · dsimp only [setPT]
          rw [vpnPTE_eq_some _ _ _ _ (updFn_same _ _ _), updFn_same]
        · exact updFn_same _ _ _
        · dsimp only
          rw [updFn_same, hz]
        · intro f hfne
          exact updFn_other _ _ _ _ hfne
        · intro v hv2
          dsimp only [setPT]
          by_cases hdiv : v / NPP = vpn / NPP
          · have hmod : v % NPP ≠ vpn % NPP := by
              rcases hv2 with h | h
              · exact absurd hdiv h
              · exact h
            rw [vpnPTE_eq_some _ _ _ _ (by rw [hdiv]; exact updFn_same _ _ _),
              vpnPTE_eq_none _ _ _ (by rw [hdiv, ← hal]; exact hpt),
              Option.getD_some, Option.getD_none, updFn_other _ _ _ _ hmod]
            rfl
          · have hnew : updFn (updFn s.ptbr (vpn / NPP) (some emptyPD)) (vpn / NPP)
                (some (updFn emptyPD (vpn % NPP)
                  { valid := true, writable := rw == 3, pfn := num, priv := false }))
                (v / NPP) = s.ptbr (v / NPP) := by
              rw [updFn_other _ _ _ _ hdiv, updFn_other _ _ _ _ hdiv]
            cases hlook : s.ptbr (v / NPP) with
            | none =>
                rw [vpnPTE_eq_none _ _ _ (hnew.trans hlook),
                  vpnPTE_eq_none _ _ _ (by rw [← hal]; exact hlook)]
            | some pdv =>
                rw [vpnPTE_eq_some _ _ _ _ (hnew.trans hlook),
                  vpnPTE_eq_some _ _ _ _ (by rw [← hal]; exact hlook)]
    | some pd0 =>
        refine ⟨num,
          { setPT s (updFn s.ptbr (vpn / NPP)
              (some (updFn pd0 (vpn % NPP)
                { valid := true, writable := rw == 3, pfn := num, priv := false }))) with
              mapcounts := updFn s.mapcounts num (s.mapcounts num + 1) },
          ?_, hz, hmin, hlt, ?_, ?_, ?_, ?_, ?_, rfl⟩
        · simp only [alloc_page, hpt, hscan, updFn_same, Option.getD_some]
        · dsimp only [setPT]
          rw [vpnPTE_eq_some _ _ _ _ (updFn_same _ _ _), updFn_same]
        · exact updFn_same _ _ _
        · dsimp only
          rw [updFn_same, hz]
        · intro f hfne
          exact updFn_other _ _ _ _ hfne
        · intro v hv2
          dsimp only [setPT]
          by_cases hdiv : v / NPP = vpn / NPP
          · have hmod : v % NPP ≠ vpn % NPP := by
              rcases hv2 with h | h
              · exact absurd hdiv h
              · exact h
            rw [vpnPTE_eq_some _ _ _ _ (by rw [hdiv]; exact updFn_same _ _ _),
              vpnPTE_eq_some _ _ _ _ (by rw [hdiv, ← hal]; exact hpt),
              Option.getD_some, Option.getD_some, updFn_other _ _ _ _ hmod]
          · have hnew : updFn s.ptbr (vpn / NPP)
                (some (updFn pd0 (vpn % NPP)
                  { valid := true, writable := rw == 3, pfn := num, priv := false }))
                (v / NPP) = s.ptbr (v / NPP) := updFn_other _ _ _ _ hdiv
            cases hlook : s.ptbr (v / NPP) with
            | none =>
                rw [vpnPTE_eq_none _ _ _ (hnew.trans hlook),
                  vpnPTE_eq_none _ _ _ (by rw [← hal]; exact hlook)]
            | some pdv =>
                rw [vpnPTE_eq_some _ _ _ _ (hnew.trans hlook),
                  vpnPTE_eq_some _ _ _ _ (by rw [← hal]; exact hlook)]
  · intro hall
    have hnone : scanFree s.mapcounts NPF = none := by
      cases h : scanFree s.mapcounts NPF with
      | none => rfl
      | some k =>
          obtain ⟨hk0, hkN, _⟩ := scanFree_some_spec s.mapcounts NPF k h
          exact absurd hk0 (hall k hkN)
    cases hpt : s.ptbr (vpn / NPP) with
    | none =>
        refine ⟨setPT s (updFn s.ptbr (vpn / NPP) (some emptyPD)), ?_, rfl, ?_, rfl⟩
        · simp only [alloc_page, hpt, hnone, updFn_same, Option.getD_some]
        · intro v
          dsimp only [setPT]
          by_cases hdiv : v / NPP = vpn / NPP
          · rw [vpnPTE_eq_some _ _ _ _ (by rw [hdiv]; exact updFn_same _ _ _),
              vpnPTE_eq_none _ _ _ (by rw [hdiv, ← hal]; exact hpt),
              Option.getD_some, Option.getD_none]
            rfl
          · have hnew : updFn s.ptbr (vpn / NPP) (some emptyPD) (v / NPP) =
                s.ptbr (v / NPP) := updFn_other _ _ _ _ hdiv
            cases hlook : s.ptbr (v / NPP) with
            | none =>
                rw [vpnPTE_eq_none _ _ _ (hnew.trans hlook),
                  vpnPTE_eq_none _ _ _ (by rw [← hal]; exact hlook)]
            | some pdv =>
                rw [vpnPTE_eq_some _ _ _ _ (hnew.trans hlook),
                  vpnPTE_eq_some _ _ _ _ (by rw [← hal]; exact hlook)]
    | some pd0 =>
        refine ⟨setPT s s.ptbr, ?_, rfl, ?_, rfl⟩
        · simp only [alloc_page, hpt, hnone, updFn_same, Option.getD_some]
        · intro v
          dsimp only [setPT]
          rw [hal]

/-- A fresh state: one process with an entirely empty page table, all
frames free (with `NPP = 2`, `NPF = 4`). -/
def sEmpty : State :=
  { current := { tag := 0, pid := 0, pagetable := emptyPT },
    processes := [],
    ptbr := emptyPT,
    mapcounts := fun _ => 0,
    frames := fun _ => 0,
    nextTag := 1 }

/-- Witness for C4: applied to the fresh state `sEmpty` with a
read-write request for vpn 0 (the exhaustion branch is vacuous there). -/
theorem C4_alloc_page_post_witness :
    (∀ f0, f0 < 4 → sEmpty.mapcounts f0 = 0 →
      ∃ num s', alloc_page 2 4 sEmpty 0 3 = (some num, s') ∧
        sEmpty.mapcounts num = 0 ∧ (∀ k, k < num → sEmpty.mapcounts k ≠ 0) ∧ num < 4 ∧
        vpnPTE 2 s'.current.pagetable 0 =
          some { valid := true, writable := 3 == 3, pfn := num, priv := false } ∧
        s'.mapcounts num = sEmpty.mapcounts num + 1 ∧ s'.mapcounts num = 1 ∧
        (∀ f, f ≠ num → s'.mapcounts f = sEmpty.mapcounts f) ∧
        (∀ v, v / 2 ≠ 0 / 2 ∨ v % 2 ≠ 0 % 2 →
          (vpnPTE 2 s'.current.pagetable v).getD emptyPTE =
            (vpnPTE 2 sEmpty.current.pagetable v).getD emptyPTE) ∧
        s'.processes = sEmpty.processes) ∧
    ((∀ f, f < 4 → sEmpty.mapcounts f ≠ 0) →
      ∃ s', alloc_page 2 4 sEmpty 0 3 = (none, s') ∧
        s'.mapcounts = sEmpty.mapcounts ∧
        (∀ v, (vpnPTE 2 s'.current.pagetable v).getD emptyPTE =
          (vpnPTE 2 sEmpty.current.pagetable v).getD emptyPTE) ∧
        s'.processes = sEmpty.processes) :=
  C4_alloc_page_post 2 4 sEmpty 0 3 rfl

/-- Counterexample for C6 as stated: the claim requires `free_page` to
reset `private` to false, but the source only resets `valid`,
`writable` and `pfn`.  At `sSole` (whose vpn-0 entry has
`private = true`) the entry left behind by `free_page` still has
`private = true`. -/
theorem C6_free_page_counterexample :
    ¬ ∀ s', free_page 2 sSole 0 = some s' →
        ((s'.current.pagetable 0).getD emptyPD 0).priv = false := fun h =>
  absurd (h _ rfl) (by decide)

/-- Claim C6, amended: for a currently valid vpn, `free_page`
decrements the mapped frame's reference count, resets the entry to
invalid with `writable = false` and `frame = 0` while leaving the
`private` field unchanged, and modifies no other reference count, no
other page-table slot, and no other process. -/
theorem C6_free_page_amended
    (NPP : Nat) (s : State) (vpn : Nat) (pd : PteDirectory)
    (hal : s.ptbr = s.current.pagetable)
    (hpd : s.current.pagetable (vpn / NPP) = some pd)
    (hv : (pd (vpn % NPP)).valid = true)
    (hc : 0 < s.mapcounts (pd (vpn % NPP)).pfn) :
    ∃ s', free_page NPP s vpn = some s' ∧
      s'.mapcounts (pd (vpn % NPP)).pfn + 1 = s.mapcounts (pd (vpn % NPP)).pfn ∧
      (∀ f, f ≠ (pd (vpn % NPP)).pfn → s'.mapcounts f = s.mapcounts f) ∧
      s'.current.pagetable (vpn / NPP) =
        some (updFn pd (vpn % NPP)
          { valid := false, writable := false, pfn := 0,
            priv := (pd (vpn % NPP)).priv }) ∧
      (∀ i, i ≠ vpn / NPP → s'.current.pagetable i = s.current.pagetable i) ∧
      s'.processes = s.processes := by
  have hpd' : s.ptbr (vpn / NPP) = some pd := by rw [hal]; exact hpd
  refine ⟨{ setPT s (updFn s.ptbr (vpn / NPP)
      (some (updFn pd (vpn % NPP)
        { valid := false, writable := false, pfn := 0,
          priv := (pd (vpn % NPP)).priv }))) with
      mapcounts := updFn s.mapcounts (pd (vpn % NPP)).pfn
        (s.mapcounts (pd (vpn % NPP)).pfn - 1) },
    ?_, ?_, ?_, ?_, ?_, rfl⟩
  · simp only [free_page, hpd']
  · dsimp only
    rw [updFn_same]
    omega
  · intro f hf
    exact updFn_other _ _ _ _ hf
  · dsimp only [setPT]
    exact updFn_same _ _ _
  · intro i hi
    dsimp only [setPT]
    rw [updFn_other _ _ _ _ hi, hal]

/-- Witness for the amended C6: applied to the concrete state `sSole`
at vpn 0. -/
theorem C6_free_page_amended_witness :
    ∃ s', free_page 2 sSole 0 = some s' ∧
      s'.mapcounts (pdS (0 % 2)).pfn + 1 = sSole.mapcounts (pdS (0 % 2)).pfn ∧
      (∀ f, f ≠ (pdS (0 % 2)).pfn → s'.mapcounts f = sSole.mapcounts f) ∧
      s'.current.pagetable (0 / 2) =
        some (updFn pdS (0 % 2)
          { valid := false, writable := false, pfn := 0,
            priv := (pdS (0 % 2)).priv }) ∧
      (∀ i, i ≠ 0 / 2 → s'.current.pagetable i = sSole.current.pagetable i) ∧
      s'.processes = sSole.processes :=
  C6_free_page_amended 2 sSole 0 pdS rfl rfl rfl (by decide)

/-- An inner directory with an invalid but still `private` entry at
index 0 — exactly the residue `free_page` leaves behind, since it does
not reset the COW marker. -/
def pdInv : PteDirectory :=
  fun j =>
    if j = 0 then { valid := false, writable := false, pfn := 0, priv := true }
    else emptyPTE

/-- A page table whose first inner directory is `pdInv`. -/
def ptInv : Pagetable := fun i => if i = 0 then some pdInv else none

/-- A state with an invalid-but-private PTE at vpn 0 and no inner
directory for vpns 4..7 (with `NPP = 2`, `NPF = 4`).  Reachable by:
alloc_page(0, read-write) in the first process; fork (demotes the
entry to non-writable private, count 2); then free_page(0) in the
current process (count back to 1, `private` survives invalidation);
the ready process still maps frame 0, so `mapcounts[0] = 1` is
conserved. -/
def sInv : State :=
  { current := { tag := 0, pid := 1, pagetable := ptInv },
    processes := [{ tag := 1, pid := 2, pagetable := ptS }],
    ptbr := ptInv,
    mapcounts := fun f => if f = 0 then 1 else 0,
    frames := fun _ => 0,
    nextTag := 2 }

/-- Claim C8 (evaluation at the failing input): the claim says a write
fault on an invalid entry — including one whose inner directory was
never allocated — fails with no PTE modified.  The source never tests
`pte->valid`: at `sInv` the vpn-0 entry is invalid, yet the write
fault returns success and sets the invalid entry writable; and for
vpn 4 the source dereferences the NULL inner directory (no defined
result) instead of returning failure. -/
theorem C8_invalid_fault_eval :
    ((sInv.current.pagetable 0).getD emptyPD 0).valid = false ∧
    (∃ s', handle_page_fault 2 4 sInv 0 RW_WRITE = some (true, s') ∧
      ((s'.current.pagetable 0).getD emptyPD 0).writable = true ∧
      ((s'.current.pagetable 0).getD emptyPD 0).valid = false) ∧
    handle_page_fault 2 4 sInv 4 RW_WRITE = none :=
  ⟨rfl, ⟨_, rfl, rfl, rfl⟩, rfl⟩

/-- A reachable state in which the reference-count invariant holds but
the next `handle_page_fault` call destroys it.  The current process
has the invalid-but-private residue that `free_page` leaves at vpn 0;
two ready processes still share frame 0 through valid private
read-only mappings, so `mapcounts[0] = 2` is conserved.  Reachable by:
alloc_page(0, read-write) in process 1; switch to pid 2 (fork, count
2); switch back to 1; free_page(0) (count 1, `private` survives);
switch to 2; switch to pid 3 (fork, count 2); switch back to 1. -/
def sC1 : State :=
  { current := { tag := 0, pid := 1, pagetable := ptInv },
    processes := [{ tag := 2, pid := 2, pagetable := ptS },
                  { tag := 3, pid := 3, pagetable := ptS }],
    ptbr := ptInv,
    mapcounts := fun f => if f = 0 then 2 else 0,
    frames := fun _ => 0,
    nextTag := 4 }

/-- Counterexample for C1 as stated: the claim requires conservation
to hold after every `handle_page_fault` call, and spec §4.4 states no
narrowing precondition for the fault handler (a write fault on an
invalid entry must simply fail with no mutation).  At `sC1` the
invariant holds, the write fault on vpn 0 returns success — the source
never tests `pte->valid`, takes the shared path on the invalid entry
because `mapcounts[0] = 2`, decrements frame 0's count below its two
remaining valid mappers and credits frame 1 which no valid PTE maps —
and the invariant is false afterwards. -/
theorem C1_refcount_counterexample :
    refInv 2 4 sC1 ∧
    (handle_page_fault 2 4 sC1 0 RW_WRITE).map Prod.fst = some true ∧
    ¬ refInv 2 4 ((handle_page_fault 2 4 sC1 0 RW_WRITE).getD (true, sC1)).2 :=
  ⟨by intro f hf; interval_cases f <;> rfl,
   rfl,
   fun h => absurd (h 0 (by decide)) (by decide)⟩

/-- Claim C7 (evaluation at the failing input): the spec requires the
newly allocated frame's content to be a byte-for-byte copy of the old
frame's content, but the source's shared-frame path performs no copy
(spec §9 flags this).  At `sShare` the fault retargets vpn 0 from
frame 0 (content 42) to the freshly allocated frame 1, whose content
is still 0 — not a copy. -/
theorem C7_no_copy_eval :
    sShare.frames 0 = 42 ∧
    (∃ s', handle_page_fault 2 4 sShare 0 RW_WRITE = some (true, s') ∧
      ((s'.current.pagetable 0).getD emptyPD 0).pfn = 1 ∧
      s'.frames 1 = 0 ∧ s'.frames 1 ≠ sShare.frames 0) :=
  ⟨rfl, ⟨_, rfl, rfl, rfl, by decide⟩⟩

/-- Two distinct processes with the same pid 5: the current one and a
ready one.  Reachable by forking pid 5 twice from a fresh process
whose own pid differs. -/
def sDup : State :=
  { current := { tag := 0, pid := 5, pagetable := emptyPT },
    processes := [{ tag := 1, pid := 5, pagetable := emptyPT }],
    ptbr := emptyPT,
    mapcounts := fun _ => 0,
    frames := fun _ => 0,
    nextTag := 2 }

/-- Counterexample for C10 as stated: the claim says that whenever the
requested pid equals the current process's pid the membership test
fails and the fork branch runs, creating a new process.  The test
compares pids, not identities: at `sDup` the requested pid 5 equals
the current pid, yet a ready process also has pid 5, so the
existing-target branch runs — no process is created (`nextTag`
unchanged, the new current is the pre-existing tag-1 process, not a
fresh one). -/
theorem C10_counterexample :
    sDup.current.pid = 5 ∧
    (switch_process 2 sDup 5).nextTag = sDup.nextTag ∧
    (switch_process 2 sDup 5).current.tag = 1 ∧
    (switch_process 2 sDup 5).current.tag ≠ sDup.nextTag :=
  ⟨rfl, rfl, rfl, by decide⟩

/-- Claim C10, amended: switching to the current process's own pid
forks provided no ready process shares that pid — the membership test
(which compares pids) then fails, so the fork branch runs: a second,
distinct process (fresh identity tag, same pid) is created and made
current, and the previous current process is pushed onto the ready
queue; the call is never a no-op. -/
theorem C10_self_switch_forks
    (NPP : Nat) (s : State) (pid : Nat)
    (hpid : pid = s.current.pid)
    (hnot : ∀ q ∈ s.processes, q.pid ≠ pid)
    (hfresh : s.current.tag < s.nextTag) :
    (switch_process NPP s pid).current.pid = pid ∧
    (switch_process NPP s pid).current.tag = s.nextTag ∧
    (switch_process NPP s pid).current.tag ≠ s.current.tag ∧
    (switch_process NPP s pid).nextTag = s.nextTag + 1 ∧
    ∃ pp rest, (switch_process NPP s pid).processes = pp :: rest ∧
      rest = s.processes ∧ pp.pid = s.current.pid ∧ pp.tag = s.current.tag := by
  have hrm : removeFirstPid s.processes pid = none :=
    (removeFirstPid_none_iff pid s.processes).mpr hnot
  refine ⟨?_, ?_, ?_, ?_, ?_⟩
  · simp only [switch_process, hrm]
  · simp only [switch_process, hrm]
  · simp only [switch_process, hrm]
    omega
  · simp only [switch_process, hrm]
  · simp only [switch_process, hrm]
    exact ⟨_, s.processes, rfl, rfl, rfl, rfl⟩

/-- Claim C9.  Switch/ready-set invariant: assuming the standing
invariants (the current process is not in the ready queue, the queue
holds each process once, and the fresh-identity counter is above every
live tag), after any `switch_process` call — either branch — the
translation root equals the new current process's page table, the
outgoing process appears exactly once in the ready queue, the new
current process appears zero times in it, every previously live
process is in exactly one place (current or ready queue), and no
process appears twice anywhere. -/
theorem C9_switch_ready_invariant
    (NPP : Nat) (s : State) (pid : Nat)
    (hcur : countTag s.processes s.current.tag = 0)
    (hdist : ∀ q ∈ s.processes, countTag s.processes q.tag = 1)
    (hfreshc : s.current.tag < s.nextTag)
    (hfreshr : ∀ q ∈ s.processes, q.tag < s.nextTag) :
    (switch_process NPP s pid).ptbr = (switch_process NPP s pid).current.pagetable ∧
    countTag (switch_process NPP s pid).processes s.current.tag = 1 ∧
    countTag (switch_process NPP s pid).processes
      (switch_process NPP s pid).current.tag = 0 ∧
    (∀ q, (q = s.current ∨ q ∈ s.processes) →
      countTag ((switch_process NPP s pid).current ::
        (switch_process NPP s pid).processes) q.tag = 1) ∧
    (∀ t, countTag ((switch_process NPP s pid).current ::
        (switch_process NPP s pid).processes) t ≤ 1) := by
  have hc0 : ∀ q ∈ s.processes, q.tag ≠ s.current.tag := countTag_zero_mem _ _ hcur
  have hle1 : ∀ t, countTag s.processes t ≤ 1 := countTag_le_one s.processes hdist
  cases hrm : removeFirstPid s.processes pid with
  | some v =>
      obtain ⟨temp, rest⟩ := v
      have hsplit := countTag_remove pid s.processes rest temp hrm
      have htmem : temp ∈ s.processes := removeFirstPid_mem pid s.processes rest temp hrm
      have htc : temp.tag ≠ s.current.tag := hc0 temp htmem
      have hrt : countTag rest temp.tag = 0 := by
        have h1 := hsplit temp.tag
        have h2 := hdist temp htmem
        rw [if_pos rfl] at h1
        omega
      have hrc : countTag rest s.current.tag = 0 := by
        have h1 := hsplit s.current.tag
        rw [if_neg htc] at h1
        omega
      have hrle : ∀ t, countTag rest t ≤ 1 := by
        intro t
        have h1 := hsplit t
        have h2 := hle1 t
        by_cases h3 : temp.tag = t
        · rw [if_pos h3] at h1; omega
        · rw [if_neg h3] at h1; omega
      refine ⟨?_, ?_, ?_, ?_, ?_⟩
      · simp only [switch_process, hrm]
      · simp only [switch_process, hrm]
        rw [countTag_cons, if_pos rfl, hrc]
      · simp only [switch_process, hrm]
        rw [countTag_cons, if_neg (Ne.symm htc), hrt]
      · intro q hq
        simp only [switch_process, hrm]
        rw [countTag_cons, countTag_cons]
        rcases hq with rfl | hq2
        · rw [if_neg htc, if_pos rfl, hrc]
        · have hqc : q.tag ≠ s.current.tag := hc0 q hq2
          have h1 := hsplit q.tag
          have h2 := hdist q hq2
          by_cases hqt : temp.tag = q.tag
          · rw [if_pos hqt, if_neg (Ne.symm hqc)]
            rw [if_pos hqt] at h1
            omega
          · rw [if_neg hqt, if_neg (Ne.symm hqc)]
            rw [if_neg hqt] at h1
            omega
      · intro t
        simp only [switch_process, hrm]
        rw [countTag_cons, countTag_cons]
        have h1 := hsplit t
        have h2 := hle1 t
        by_cases h3 : temp.tag = t
        · rw [if_pos h3]
          by_cases h4 : s.current.tag = t
          · exact absurd (h3.trans h4.symm) htc
          · rw [if_neg h4]
            rw [if_pos h3] at h1
            omega
        · rw [if_neg h3]
          rw [if_neg h3] at h1
          by_cases h4 : s.current.tag = t
          · rw [if_pos h4]
            have h5 : countTag s.processes t = 0 := by rw [← h4]; exact hcur
            omega
          · rw [if_neg h4]
            omega
  | none =>
      have hnc : s.current.tag ≠ s.nextTag := by omega
      have hpz : countTag s.processes s.nextTag = 0 :=
        countTag_eq_zero _ _ fun q hq => by have := hfreshr q hq; omega
      refine ⟨?_, ?_, ?_, ?_, ?_⟩
      · simp only [switch_process, hrm]
      · simp only [switch_process, hrm]
        rw [countTag_cons]
        rw [if_pos rfl, hcur]
      · simp only [switch_process, hrm]
        rw [countTag_cons]
        rw [if_neg hnc, hpz]
      · intro q hq
        simp only [switch_process, hrm]
        rw [countTag_cons, countTag_cons]
        rcases hq with rfl | hq2
        · rw [if_neg (by omega : s.nextTag ≠ s.current.tag), if_pos rfl, hcur]
        · have h1 : s.nextTag ≠ q.tag := by have := hfreshr q hq2; omega
          rw [if_neg h1, if_neg (Ne.symm (hc0 q hq2)), hdist q hq2]
      · intro t
        simp only [switch_process, hrm]
        rw [countTag_cons, countTag_cons]
        have h2 := hle1 t
        by_cases h3 : s.nextTag = t
        · rw [if_pos h3]
          have h4 : s.current.tag ≠ t := by omega
          rw [if_neg h4]
          have h5 : countTag s.processes t = 0 := by rw [← h3]; exact hpz
          omega
        · rw [if_neg h3]
          by_cases h4 : s.current.tag = t
          · rw [if_pos h4]
            have h5 : countTag s.processes t = 0 := by rw [← h4]; exact hcur
            omega
          · rw [if_neg h4]
            omega

/-- One current process (tag 0) and one ready process (tag 1, pid 2),
for the existing-target-branch witness of C9. -/
def sSw : State :=
  { current := { tag := 0, pid := 1, pagetable := emptyPT },
    processes := [{ tag := 1, pid := 2, pagetable := emptyPT }],
    ptbr := emptyPT,
    mapcounts := fun _ => 0,
    frames := fun _ => 0,
    nextTag := 2 }

/-- Witness for C9: switching from `sSw` to the ready process with
pid 2 (existing-target branch). -/
theorem C9_switch_ready_invariant_witness :
    (switch_process 2 sSw 2).ptbr = (switch_process 2 sSw 2).current.pagetable ∧
    countTag (switch_process 2 sSw 2).processes sSw.current.tag = 1 ∧
    countTag (switch_process 2 sSw 2).processes
      (switch_process 2 sSw 2).current.tag = 0 ∧
    (∀ q, (q = sSw.current ∨ q ∈ sSw.processes) →
      countTag ((switch_process 2 sSw 2).current ::
        (switch_process 2 sSw 2).processes) q.tag = 1) ∧
    (∀ t, countTag ((switch_process 2 sSw 2).current ::
        (switch_process 2 sSw 2).processes) t ≤ 1) :=
  C9_switch_ready_invariant 2 sSw 2 (by decide)
    (by
      intro q hq
      simp only [sSw] at hq
      rcases List.mem_singleton.mp hq with rfl
      rfl)
    (by decide)
    (by
      intro q hq
      simp only [sSw] at hq
      rcases List.mem_singleton.mp hq with rfl
      decide)

/-- A fresh single process with pid 5 and an empty ready queue. -/
def sSelf : State :=
  { current := { tag := 0, pid := 5, pagetable := emptyPT },
    processes := [],
    ptbr := emptyPT,
    mapcounts := fun _ => 0,
    frames := fun _ => 0,
    nextTag := 1 }

theorem forkChildPD_valid (pd : PteDirectory) (j : Nat) :
    (forkChildPD pd j).valid = (pd j).valid := by
  simp only [forkChildPD]
  by_cases hv : (pd j).valid = true
  · rw [if_pos hv, hv]
  · rw [if_neg hv]
    simp only [Bool.not_eq_true] at hv
    rw [hv]
    rfl

theorem forkChildPD_pfn (pd : PteDirectory) (j : Nat) (hv : (pd j).valid = true) :
    (forkChildPD pd j).pfn = (pd j).pfn := by
  simp only [forkChildPD, if_pos hv]

/-- Claim C5.  Fork symmetry: when `switch_process (pid)` runs with a
pid absent from the ready queue, the fork branch executes and (pid
check) the new current process is the child with the requested pid;
(1) the child's page table mirrors the parent's pre-fork table exactly
— same allocated directories, same validity, same frame numbers;
(2) every entry that was writable in the parent pre-fork is
non-writable and private post-fork in both the parent's copy (now at
the head of the ready queue) and the child's copy, with the frame
number preserved; and (3) provided each frame is mapped by at most one
valid parent entry, every frame mapped by a valid parent entry has its
reference count incremented by exactly 1. -/
theorem C5_fork_symmetry
    (NPP : Nat) (s : State) (pid : Nat)
    (hal : s.ptbr = s.current.pagetable)
    (hfork : ∀ q ∈ s.processes, q.pid ≠ pid) :
    (switch_process NPP s pid).current.pid = pid ∧
    (∀ i j, i < NPP → j < NPP →
      ∀ pdP, s.current.pagetable i = some pdP →
        ∃ pdC, (switch_process NPP s pid).current.pagetable i = some pdC ∧
          (pdC j).valid = (pdP j).valid ∧
          ((pdP j).valid = true → (pdC j).pfn = (pdP j).pfn)) ∧
    (∀ i, i < NPP → s.current.pagetable i = none →
      (switch_process NPP s pid).current.pagetable i = none) ∧
    (∀ i j, i < NPP → j < NPP →
      ∀ pdP, s.current.pagetable i = some pdP →
        (pdP j).valid = true → (pdP j).writable = true →
        ∃ pp rest pdP2 pdC,
          (switch_process NPP s pid).processes = pp :: rest ∧ rest = s.processes ∧
          pp.pagetable i = some pdP2 ∧
          (switch_process NPP s pid).current.pagetable i = some pdC ∧
          (pdP2 j).writable = false ∧ (pdP2 j).priv = true ∧
          (pdP2 j).valid = true ∧ (pdP2 j).pfn = (pdP j).pfn ∧
          (pdC j).writable = false ∧ (pdC j).priv = true ∧
          (pdC j).valid = true ∧ (pdC j).pfn = (pdP j).pfn) ∧
    ((∀ i1 j1 i2 j2 pd1 pd2, i1 < NPP → j1 < NPP → i2 < NPP → j2 < NPP →
        s.current.pagetable i1 = some pd1 → s.current.pagetable i2 = some pd2 →
        (pd1 j1).valid = true → (pd2 j2).valid = true →
        (pd1 j1).pfn = (pd2 j2).pfn → i1 = i2 ∧ j1 = j2) →
      ∀ i j pdP, i < NPP → j < NPP → s.current.pagetable i = some pdP →
        (pdP j).valid = true →
        (switch_process NPP s pid).mapcounts (pdP j).pfn =
          s.mapcounts (pdP j).pfn + 1) := by
  have hrm : removeFirstPid s.processes pid = none :=
    (removeFirstPid_none_iff pid s.processes).mpr hfork
  have hptbr : ∀ i, s.ptbr i = s.current.pagetable i := fun i => by rw [hal]
  refine ⟨?_, ?_, ?_, ?_, ?_⟩
  · simp only [switch_process, hrm]
  · intro i j hi hj pdP hpdP
    have hC : (switch_process NPP s pid).current.pagetable i =
        some (forkChildPD pdP) := by
      simp only [switch_process, hrm, forkChildPT]
      rw [if_pos hi, hptbr i, hpdP]
      rfl
    exact ⟨forkChildPD pdP, hC, forkChildPD_valid pdP j,
      fun hv => forkChildPD_pfn pdP j hv⟩
  · intro i hi hnone
    simp only [switch_process, hrm, forkChildPT]
    rw [if_pos hi, hptbr i, hnone]
    rfl
  · intro i j hi hj pdP hpdP hv hw
    have hC : (switch_process NPP s pid).current.pagetable i =
        some (forkChildPD pdP) := by
      simp only [switch_process, hrm, forkChildPT]
      rw [if_pos hi, hptbr i, hpdP]
      rfl
    have hdem : forkParentPD pdP j = { pdP j with writable := false, priv := true } := by
      simp only [forkParentPD, if_pos hv, demote, if_pos hw]
    have hch : forkChildPD pdP j =
        { valid := true, writable := false, pfn := (pdP j).pfn, priv := true } := by
      simp only [forkChildPD, if_pos hv, demote, if_pos hw]
    refine ⟨{ s.current with pagetable := forkParentPT NPP s.ptbr }, s.processes,
      forkParentPD pdP, forkChildPD pdP, ?_, rfl, ?_, hC, ?_, ?_, ?_, ?_, ?_, ?_, ?_, ?_⟩
    · simp only [switch_process, hrm]
    · dsimp only
      simp only [forkParentPT]
      rw [if_pos hi, hptbr i, hpdP]
      rfl
    · rw [hdem]
    · rw [hdem]
    · rw [hdem]; exact hv
    · rw [hdem]
    · rw [hch]
    · rw [hch]
    · rw [hch]
    · rw [hch]
  · intro huniq i j pdP hi hj hpdP hv
    have hmapc : (switch_process NPP s pid).mapcounts =
        bumpPT NPP s.ptbr s.mapcounts NPP := by
      simp only [switch_process, hrm]
    rw [hmapc, bumpPT_apply]
    have hone : countPT NPP s.ptbr ((pdP j).pfn) NPP = 1 := by
      refine countPT_eq_one NPP s.ptbr ((pdP j).pfn) ?_ i j pdP hi hj
        (by rw [hptbr]; exact hpdP) (by rw [pteMaps_iff]; exact ⟨hv, rfl⟩)
      intro i1 j1 i2 j2 pd1 pd2 hi1 hj1 hi2 hj2 hpd1 hpd2 hm1 hm2
      rw [hptbr] at hpd1 hpd2
      obtain ⟨hv1, hf1⟩ := (pteMaps_iff _ _).mp hm1
      obtain ⟨hv2, hf2⟩ := (pteMaps_iff _ _).mp hm2
      exact huniq i1 j1 i2 j2 pd1 pd2 hi1 hj1 hi2 hj2 hpd1 hpd2 hv1 hv2
        (hf1.trans hf2.symm)
    rw [hone]

/-- A page table with a single valid, writable entry at vpn 0 mapping
frame 0 (used by the fork witness). -/
def pdW : PteDirectory :=
  fun j =>
    if j = 0 then { valid := true, writable := true, pfn := 0, priv := false }
    else emptyPTE

/-- See `pdW`. -/
def ptW : Pagetable := fun i => if i = 0 then some pdW else none

/-- One process owning a single writable page (frame 0, count 1). -/
def sFork : State :=
  { current := { tag := 0, pid := 1, pagetable := ptW },
    processes := [],
    ptbr := ptW,
    mapcounts := fun f => if f = 0 then 1 else 0,
    frames := fun _ => 0,
    nextTag := 1 }

/-- Witness for C5: forking pid 7 from `sFork`. -/
theorem C5_fork_symmetry_witness :
    (switch_process 2 sFork 7).current.pid = 7 ∧
    (∀ i j, i < 2 → j < 2 →
      ∀ pdP, sFork.current.pagetable i = some pdP →
        ∃ pdC, (switch_process 2 sFork 7).current.pagetable i = some pdC ∧
          (pdC j).valid = (pdP j).valid ∧
          ((pdP j).valid = true → (pdC j).pfn = (pdP j).pfn)) ∧
    (∀ i, i < 2 → sFork.current.pagetable i = none →
      (switch_process 2 sFork 7).current.pagetable i = none) ∧
    (∀ i j, i < 2 → j < 2 →
      ∀ pdP, sFork.current.pagetable i = some pdP →
        (pdP j).valid = true → (pdP j).writable = true →
        ∃ pp rest pdP2 pdC,
          (switch_process 2 sFork 7).processes = pp :: rest ∧ rest = sFork.processes ∧
          pp.pagetable i = some pdP2 ∧
          (switch_process 2 sFork 7).current.pagetable i = some pdC ∧
          (pdP2 j).writable = false ∧ (pdP2 j).priv = true ∧
          (pdP2 j).valid = true ∧ (pdP2 j).pfn = (pdP j).pfn ∧
          (pdC j).writable = false ∧ (pdC j).priv = true ∧
          (pdC j).valid = true ∧ (pdC j).pfn = (pdP j).pfn) ∧
    ((∀ i1 j1 i2 j2 pd1 pd2, i1 < 2 → j1 < 2 → i2 < 2 → j2 < 2 →
        sFork.current.pagetable i1 = some pd1 → sFork.current.pagetable i2 = some pd2 →
        (pd1 j1).valid = true → (pd2 j2).valid = true →
        (pd1 j1).pfn = (pd2 j2).pfn → i1 = i2 ∧ j1 = j2) →
      ∀ i j pdP, i < 2 → j < 2 → sFork.current.pagetable i = some pdP →
        (pdP j).valid = true →
        (switch_process 2 sFork 7).mapcounts (pdP j).pfn =
          sFork.mapcounts (pdP j).pfn + 1) :=
  C5_fork_symmetry 2 sFork 7 rfl (by simp [sFork])

/-- Witness for C1: applied to the fresh state `sEmpty` (whose counts
trivially satisfy the invariant). -/
theorem C1_refcount_conservation_witness :
    refInv 2 4 sEmpty ∧
    ((∀ vpn rw, vpn < 2 * 2 → validAt 2 sEmpty.current.pagetable vpn = false →
      refInv 2 4 (alloc_page 2 4 sEmpty vpn rw).2) ∧
    (∀ vpn s', vpn < 2 * 2 → validAt 2 sEmpty.current.pagetable vpn = true →
      free_page 2 sEmpty vpn = some s' → refInv 2 4 s') ∧
    (∀ vpn rw b s', vpn < 2 * 2 →
      (∀ pd, sEmpty.current.pagetable (vpn / 2) = some pd →
        (pd (vpn % 2)).writable = false → (pd (vpn % 2)).priv = true →
        (pd (vpn % 2)).valid = true) →
      handle_page_fault 2 4 sEmpty vpn rw = some (b, s') → refInv 2 4 s') ∧
    (∀ pid, refInv 2 4 (switch_process 2 sEmpty pid))) :=
  ⟨by intro f hf; interval_cases f <;> rfl,
   C1_refcount_conservation 2 4 sEmpty rfl
     (by intro f hf; interval_cases f <;> rfl)⟩

/-- Witness for the amended C10: applied to `sSelf`, switching to the
current pid 5. -/
theorem C10_self_switch_forks_witness :
    (switch_process 2 sSelf 5).current.pid = 5 ∧
    (switch_process 2 sSelf 5).current.tag = sSelf.nextTag ∧
    (switch_process 2 sSelf 5).current.tag ≠ sSelf.current.tag ∧
    (switch_process 2 sSelf 5).nextTag = sSelf.nextTag + 1 ∧
    ∃ pp rest, (switch_process 2 sSelf 5).processes = pp :: rest ∧
      rest = sSelf.processes ∧ pp.pid = sSelf.current.pid ∧
      pp.tag = sSelf.current.tag :=
  C10_self_switch_forks 2 sSelf 5 rfl (by simp [sSelf]) (by decide)

end PA3
